import Mathlib

/-!
Verification of the gopher-cypher Bolt client core against its specification.

The Go sources are shallowly embedded: Go byte slices and strings become
`List Nat` (each element < 256), Go `int64` becomes `Int` with explicit
two's-complement reduction `% 2^w` where the code casts, Go maps become
association lists (Go's arbitrary iteration order is fixed to list order),
and fallible code returns `Except String`.
-/

namespace GopherCypher

/-- Go byte strings (`string` / `[]byte`): a list of byte values. -/
abbrev Bytes := List Nat

/-- ASCII bytes of a Lean string literal; mirrors Go's `[]byte(s)` for the
ASCII identifiers ("mode", "write", "neo4j", ...) that the code uses. -/
def asciiBytes (s : String) : Bytes :=
  s.data.map Char.toNat

/-! ## Metadata maps (`map[string]interface{}` used by messages.go)

Metadata values are either Go strings or some other dynamic value (opaque
here): `NewRun`/`NewBegin` only ever type-assert `.(string)`. -/

/-- A dynamic metadata value: a Go string, or any non-string value. -/
inductive MVal where
  | mstr (s : Bytes)
  | mother (tag : Nat)
  deriving DecidableEq, Repr

/-- A Go `map[string]interface{}`, as an association list keyed by the map
key's bytes. Go's iteration order is arbitrary; the claims only use lookup,
assignment and delete, which are order-independent. -/
abbrev GoMap := List (Bytes × MVal)

/-- Go map lookup `m[k]` (`nil, false` when absent). -/
def mapGet (m : GoMap) (k : Bytes) : Option MVal :=
  match m with
  | [] => none
  | (k', v) :: rest => if k' = k then some v else mapGet rest k

/-- Go map assignment `m[k] = v`: overwrite in place, or append a new key. -/
def mapSet (m : GoMap) (k : Bytes) (v : MVal) : GoMap :=
  match m with
  | [] => [(k, v)]
  | (k', v') :: rest => if k' = k then (k', v) :: rest else (k', v') :: mapSet rest k v

/-- Go `delete(m, k)`. -/
def mapDel (m : GoMap) (k : Bytes) : GoMap :=
  match m with
  | [] => []
  | (k', v') :: rest => if k' = k then mapDel rest k else (k', v') :: mapDel rest k

/-! ## messages.go: NewRun and NewBegin metadata handling -/

/-- The in-place update `NewRun` applies to its metadata map
(messages.go lines 158-161): a string `mode` longer than one byte is
truncated to its first byte (`metadata["mode"] = mode[:1]`). -/
def newRunMeta (m : GoMap) : GoMap :=
  match mapGet m (asciiBytes "mode") with
  | some (.mstr s) => if s.length > 1 then mapSet m (asciiBytes "mode") (.mstr (s.take 1)) else m
  | _ => m

/-- The condition `adapter, ok := metadata["adapter"].(string); ok &&
adapter == "memgraph"` of `NewBegin` (messages.go line 210). -/
def isMemgraphAdapter (m : GoMap) : Bool :=
  match mapGet m (asciiBytes "adapter") with
  | some (.mstr a) => a = asciiBytes "memgraph"
  | _ => false

/-- The condition `modeStr, ok := metadata["mode"].(string); ok &&
len(modeStr) == 1` of `NewBegin` (messages.go line 213). -/
def modeLen1 (m : GoMap) : Bool :=
  match mapGet m (asciiBytes "mode") with
  | some (.mstr s) => s.length = 1
  | _ => false

/-- The mode-defaulting step of `NewBegin` (messages.go lines 204-207):
insert `mode = "write"` when no `mode` key is present. -/
def beginStep1 (m : GoMap) : GoMap :=
  if mapGet m (asciiBytes "mode") = none then
    mapSet m (asciiBytes "mode") (.mstr (asciiBytes "write"))
  else m

/-- The in-place update `NewBegin` applies to its metadata map
(messages.go lines 199-221): default `mode` to "write" when absent; for
`adapter == "memgraph"` delete `db`; otherwise, when the `mode` value is a
string of length exactly 1 and no `db` is set, inject `db = "neo4j"`. -/
def newBeginMeta (m : GoMap) : GoMap :=
  if isMemgraphAdapter (beginStep1 m) then mapDel (beginStep1 m) (asciiBytes "db")
  else if modeLen1 (beginStep1 m) then
    if mapGet (beginStep1 m) (asciiBytes "db") = none then
      mapSet (beginStep1 m) (asciiBytes "db") (.mstr (asciiBytes "neo4j"))
    else beginStep1 m
  else beginStep1 m

/-! ## Reference semantics for C10 (maps are mutated in place)

Go maps are reference values: the `Run`/`Begin` struct stores the same map
the caller passed, and `NewRun`/`NewBegin` write through that reference. A
tiny store of map cells makes the aliasing explicit. -/

/-- A store of allocated Go maps, addressed by `Nat`. -/
abbrev Store := List (Nat × GoMap)

/-- Read the map cell at address `a` (unallocated cells read as empty). -/
def storeGet (st : Store) (a : Nat) : GoMap :=
  match st with
  | [] => []
  | (a', m) :: rest => if a' = a then m else storeGet rest a

/-- Write the map cell at address `a`. -/
def storeSet (st : Store) (a : Nat) (m : GoMap) : Store :=
  match st with
  | [] => [(a, m)]
  | (a', m') :: rest => if a' = a then (a', m) :: rest else (a', m') :: storeSet rest a m

/-- A fresh address, used when `NewRun`/`NewBegin` receive a nil map and
allocate their own with `make(map[string]interface{})`. -/
def freshAddr (st : Store) : Nat :=
  (st.map Prod.fst).foldr (fun a b => max (a + 1) b) 0

/-- `NewRun` (messages.go lines 150-168) at the store level: `none` models a
nil metadata argument. Returns the new store and the address the constructed
`Run` message holds in its `metadata` field (no copy is taken). -/
def newRun (st : Store) (mref : Option Nat) : Store × Nat :=
  match mref with
  | none =>
      let a := freshAddr st
      (storeSet st a [], a)
  | some a => (storeSet st a (newRunMeta (storeGet st a)), a)

/-- `NewBegin` (messages.go lines 199-221) at the store level, analogous to
`newRun`. -/
def newBegin (st : Store) (mref : Option Nat) : Store × Nat :=
  match mref with
  | none =>
      let a := freshAddr st
      (storeSet st a (newBeginMeta []), a)
  | some a => (storeSet st a (newBeginMeta (storeGet st a)), a)

/-! ## boltutil.go: version negotiation (C3) -/

/-- The 20-byte handshake `CheckVersion` writes (boltutil.go lines 30-36):
magic `60 60 B0 17`, then four 4-byte proposals. -/
def handshakeBytes : Bytes :=
  [0x60, 0x60, 0xB0, 0x17,
   0, 0, 8, 5,
   0, 0, 2, 5,
   0, 0, 0, 0,
   0, 0, 0, 0]

/-- A version proposal in the 4-byte wire layout used by the handshake:
byte[2] is the minor and byte[3] the major version. -/
def versionProposal (major minor : Nat) : Bytes :=
  [0, 0, minor, major]

/-- The HTTP-endpoint error text of `CheckVersion`. -/
def httpErrorMsg : String :=
  "The server responded with an HTTP response."

/-- The unsupported-version error of `CheckVersion`. -/
def unsupportedMsg : String :=
  "Unsupported protocol version"

/-- `CheckVersion`'s handling of the 4-byte server reply (boltutil.go
lines 54-70): `major = buf[3]`, `minor = buf[2]`; reject (80, 84) as HTTP;
accept only major 5 with minor 8 or 2. -/
def checkVersion (_b0 _b1 b2 b3 : Nat) : Except String (Nat × Nat) :=
  if b3 = 80 ∧ b2 = 84 then .error httpErrorMsg
  else if b3 ≠ 5 then .error unsupportedMsg
  else if b2 ≠ 8 ∧ b2 ≠ 2 then .error unsupportedMsg
  else .ok (b3, b2)

/-! ## url_resolver.go: scheme modifiers and SSL params (C9) -/

/-- The adapters `SupportedAdapters` lists. -/
def supportedAdapters : List Bytes :=
  [asciiBytes "neo4j", asciiBytes "memgraph"]

/-- Go `strings.Split(s, "+")` on the scheme's bytes. -/
def splitPlus (s : Bytes) : List Bytes :=
  match s with
  | [] => [[]]
  | c :: rest =>
      let parts := splitPlus rest
      if c = 43 then [] :: parts
      else
        match parts with
        | [] => [[c]]
        | p :: ps => (c :: p) :: ps

/-- `extractAdapterAndModifiers` (url_resolver.go lines 182-208): split the
scheme on `+`, require a supported adapter, and map each modifier to
"ssl" or "ssc" ("s" is an alias for "ssc"); anything else is invalid. -/
def extractAdapterAndModifiers (scheme : Bytes) : Option (Bytes × List Bytes) :=
  match splitPlus scheme with
  | [] => none
  | adapter :: rest =>
      if supportedAdapters.contains adapter then
        (collectModifiers rest).map fun mods => (adapter, mods)
      else none
where
  /-- The modifier loop of `extractAdapterAndModifiers`. -/
  collectModifiers : List Bytes → Option (List Bytes)
  | [] => some []
  | m :: rest =>
      if m = asciiBytes "ssl" then (collectModifiers rest).map (asciiBytes "ssl" :: ·)
      else if m = asciiBytes "ssc" ∨ m = asciiBytes "s" then
        (collectModifiers rest).map (asciiBytes "ssc" :: ·)
      else none

/-- The SSL/SSC flags `parseURL` derives from the modifiers (url_resolver.go
lines 160-166): `ssc` implies `ssl`. Returns `(useSSL, useSSC)`. -/
def sslFlags (modifiers : List Bytes) : Bool × Bool :=
  let useSSL := modifiers.contains (asciiBytes "ssl")
  let useSSC := modifiers.contains (asciiBytes "ssc")
  (useSSL || useSSC, useSSC)

/-- `SSLConnectionParams` (url_resolver.go lines 67-79) on a resolved
config's flags: `(secure, verify_cert) = (ssl || ssc, (ssl || ssc) && !ssc)`. -/
def sslConnectionParams (ssl ssc : Bool) : Bool × Bool :=
  let secure := ssl || ssc
  (secure, secure && !ssc)

/-- The SSL connection params a scheme resolves to, when it is valid:
`extractAdapterAndModifiers`, then the flag computation, then
`SSLConnectionParams`. -/
def schemeSSLParams (scheme : Bytes) : Option (Bool × Bool) :=
  (extractAdapterAndModifiers scheme).map fun am =>
    let f := sslFlags am.2
    sslConnectionParams f.1 f.2

/-- `Address()` (url_resolver.go lines 58-60): `fmt.Sprintf("%s:%d", host, port)`. -/
def address (host : String) (port : Int) : String :=
  host ++ ":" ++ toString port

/-! ## packstream.go: the PackStream codec (C1)

Go dynamic values (`interface{}`) reaching the codec. Integers of every Go
signed width are promoted to `int64` by `Pack` before encoding, so a single
`Int` constructor carries them; a `float64` is carried by its IEEE-754 bit
pattern (only decoding ever produces one, `Pack` has no case for it); a
`byte` only arises as a decoded struct signature. -/
inductive GoVal where
  | vnull
  | vbool (b : Bool)
  | vint (i : Int)
  | vfloat (bits : Nat)
  | vbyte (b : Nat)
  | vstr (s : Bytes)
  | vbytes (bs : Bytes)
  | vlist (xs : List GoVal)
  | vmap (m : List (Bytes × GoVal))
  deriving Repr

/-- Big-endian bytes of a `uint16` (`binary.BigEndian.PutUint16`). -/
def pushUint16 (n : Nat) : Bytes :=
  [n / 256 % 256, n % 256]

/-- Big-endian bytes of a `uint32`. -/
def pushUint32 (n : Nat) : Bytes :=
  [n / 16777216 % 256, n / 65536 % 256, n / 256 % 256, n % 256]

/-- Big-endian bytes of a `uint64`. -/
def pushUint64 (n : Nat) : Bytes :=
  [n / 72057594037927936 % 256, n / 281474976710656 % 256,
   n / 1099511627776 % 256, n / 4294967296 % 256,
   n / 16777216 % 256, n / 65536 % 256, n / 256 % 256, n % 256]

/-- A big-endian byte string as an unsigned number. -/
def beNat (bs : Bytes) : Nat :=
  bs.foldl (fun acc b => acc * 256 + b) 0

/-- `packInteger` (packstream.go lines 227-248): the smallest width whose
range contains `i`; Go's unsigned casts become `% 2^w`. -/
def packInteger (i : Int) : Bytes :=
  if -16 ≤ i ∧ i ≤ 127 then [(i % 256).toNat]
  else if -128 ≤ i ∧ i ≤ 127 then [0xC8, (i % 256).toNat]
  else if -32768 ≤ i ∧ i ≤ 32767 then 0xC9 :: pushUint16 ((i % 65536).toNat)
  else if -2147483648 ≤ i ∧ i ≤ 2147483647 then 0xCA :: pushUint32 ((i % 4294967296).toNat)
  else 0xCB :: pushUint64 ((i % 18446744073709551616).toNat)

/-- `packString` (packstream.go lines 142-158). -/
def packString (s : Bytes) : Except String Bytes :=
  if s.length < 16 then .ok ((0x80 + s.length) :: s)
  else if s.length < 256 then .ok (0xD0 :: s.length :: s)
  else if s.length < 65536 then .ok (0xD1 :: (pushUint16 s.length ++ s))
  else .error "String too large to pack"

/-- `packListHeader` (packstream.go lines 125-140). -/
def packListHeader (size : Nat) : Except String Bytes :=
  if size < 16 then .ok [0x90 + size]
  else if size < 256 then .ok [0xD4, size]
  else if size < 65536 then .ok (0xD5 :: pushUint16 size)
  else .error "List too large to pack"

/-- The map header cases of `packMap` (packstream.go lines 160-180). -/
def packMapHeader (size : Nat) : Except String Bytes :=
  if size < 16 then .ok [0xA0 + size]
  else if size < 256 then .ok [0xD8, size]
  else if size < 65536 then .ok (0xD9 :: pushUint16 size)
  else .error "Map too large to pack"

/-- `Packer.Pack` (packstream.go lines 79-123). The case order and the
error cases mirror the Go type switch: strings, maps, `[]byte` (explicit
error), integers, bools, nil, lists; a `float64` or a `byte` reaches the
reflection default, which is not a slice, and fails with a cannot-pack
error. `packElems` is `packList`'s element loop (lines 200-205) and
`packEntries` is `packMap`'s key-value loop (lines 182-190), with each key
packed as a string. -/
def pack : GoVal → Except String Bytes
  | .vstr s => packString s
  | .vmap m => do
      let hdr ← packMapHeader m.length
      let body ← packEntries m
      .ok (hdr ++ body)
  | .vbytes _ => .error "Cannot pack type: bytes are not supported"
  | .vint i => .ok (packInteger i)
  | .vbool b => .ok (if b then [0xC3] else [0xC2])
  | .vnull => .ok [0xC0]
  | .vlist xs => do
      let hdr ← packListHeader xs.length
      let body ← packElems xs
      .ok (hdr ++ body)
  | .vfloat _ => .error "Cannot pack type: float64"
  | .vbyte _ => .error "Cannot pack type: uint8"
where
  packElems : List GoVal → Except String Bytes
    | [] => .ok []
    | x :: xs => do
        let e ← pack x
        let es ← packElems xs
        .ok (e ++ es)
  packEntries : List (Bytes × GoVal) → Except String Bytes
    | [] => .ok []
    | (k, v) :: rest => do
        let ke ← packString k
        let ve ← pack v
        let es ← packEntries rest
        .ok (ke ++ ve ++ es)

/-- `readByte` (packstream.go lines 450-460). -/
def readByte : Bytes → Except String (Nat × Bytes)
  | [] => .error "Unexpected end of stream while reading byte"
  | b :: rest => .ok (b, rest)

/-- `readBytes` (packstream.go lines 500-512). -/
def readBytes (n : Nat) (bs : Bytes) : Except String (Bytes × Bytes) :=
  if bs.length < n then .error "Unexpected end of stream while reading bytes"
  else .ok (bs.take n, bs.drop n)

/-- `readSize` (packstream.go lines 462-478). -/
def readSize (numBytes : Nat) (bs : Bytes) : Except String (Nat × Bytes) := do
  let p ← readBytes numBytes bs
  if numBytes = 1 ∨ numBytes = 2 ∨ numBytes = 4 then .ok (beNat p.1, p.2)
  else .error "Invalid size length"

/-- `readInt` (packstream.go lines 480-498): big-endian two's complement. -/
def readInt (numBytes : Nat) (bs : Bytes) : Except String (Int × Bytes) := do
  let p ← readBytes numBytes bs
  if numBytes = 1 ∨ numBytes = 2 ∨ numBytes = 4 ∨ numBytes = 8 then
    let u := beNat p.1
    let m := 256 ^ numBytes
    .ok (if 2 * u < m then (u : Int) else (u : Int) - m, p.2)
  else .error "Invalid int size"

/-- Go map assignment for decoded `map[string]interface{}` values
(`result[key] = value` in `unpackMap`). -/
def valMapSet (m : List (Bytes × GoVal)) (k : Bytes) (v : GoVal) : List (Bytes × GoVal) :=
  match m with
  | [] => [(k, v)]
  | (k', v') :: rest => if k' = k then (k', v) :: rest else (k', v') :: valMapSet rest k v

/-- `unpackList`'s loop (packstream.go lines 387-397) over the recursive
decoder `u`. -/
def unpackN (u : Bytes → Except String (GoVal × Bytes)) :
    Nat → Bytes → Except String (List GoVal × Bytes)
  | 0, bs => .ok ([], bs)
  | n + 1, bs => do
      let p ← u bs
      let q ← unpackN u n p.2
      .ok (p.1 :: q.1, q.2)

/-- `unpackMap`'s loop (packstream.go lines 399-420): each key must decode
to a string, and pairs land in the result map by Go map assignment. -/
def unpackMapN (u : Bytes → Except String (GoVal × Bytes)) :
    Nat → List (Bytes × GoVal) → Bytes → Except String (List (Bytes × GoVal) × Bytes)
  | 0, acc, bs => .ok (acc, bs)
  | n + 1, acc, bs => do
      let pk ← u bs
      match pk.1 with
      | .vstr k => do
          let pv ← u pk.2
          unpackMapN u n (valMapSet acc k pv.1) pv.2
      | _ => .error "Map key must be a string"

/-- `unpackStructure` (packstream.go lines 423-439): a signature byte and
the fields, surfaced as the Go value `[]interface{}{signature, fields}`. -/
def unpackStructure (u : Bytes → Except String (GoVal × Bytes)) (size : Nat) (bs : Bytes) :
    Except String (GoVal × Bytes) := do
  let ps ← readByte bs
  let pf ← unpackN u size ps.2
  .ok (.vlist [.vbyte ps.1, .vlist pf.1], pf.2)

/-- `unpackValue` (packstream.go lines 285-377), over the recursive decoder
`u` used for container elements. -/
def unpackValue (u : Bytes → Except String (GoVal × Bytes)) (marker : Nat) (bs : Bytes) :
    Except String (GoVal × Bytes) :=
  if marker < 0x80 then .ok (.vint marker, bs)
  else if 0xF0 ≤ marker then .ok (.vint ((marker : Int) - 256), bs)
  else
    let highNibble := marker / 16 * 16
    let lowNibble := marker % 16
    if highNibble = 0x80 then do
      let p ← readBytes lowNibble bs
      .ok (.vstr p.1, p.2)
    else if highNibble = 0x90 then do
      let p ← unpackN u lowNibble bs
      .ok (.vlist p.1, p.2)
    else if highNibble = 0xA0 then do
      let p ← unpackMapN u lowNibble [] bs
      .ok (.vmap p.1, p.2)
    else if highNibble = 0xB0 then unpackStructure u lowNibble bs
    else if marker = 0xC0 then .ok (.vnull, bs)
    else if marker = 0xC2 then .ok (.vbool false, bs)
    else if marker = 0xC3 then .ok (.vbool true, bs)
    else if marker = 0xC8 then do
      let p ← readInt 1 bs
      .ok (.vint p.1, p.2)
    else if marker = 0xC9 then do
      let p ← readInt 2 bs
      .ok (.vint p.1, p.2)
    else if marker = 0xCA then do
      let p ← readInt 4 bs
      .ok (.vint p.1, p.2)
    else if marker = 0xCB then do
      let p ← readInt 8 bs
      .ok (.vint p.1, p.2)
    else if marker = 0xD0 then do
      let s ← readSize 1 bs
      let p ← readBytes s.1 s.2
      .ok (.vstr p.1, p.2)
    else if marker = 0xD1 then do
      let s ← readSize 2 bs
      let p ← readBytes s.1 s.2
      .ok (.vstr p.1, p.2)
    else if marker = 0xD4 then do
      let s ← readSize 1 bs
      let p ← unpackN u s.1 s.2
      .ok (.vlist p.1, p.2)
    else if marker = 0xD5 then do
      let s ← readSize 2 bs
      let p ← unpackN u s.1 s.2
      .ok (.vlist p.1, p.2)
    else if marker = 0xD8 then do
      let s ← readSize 1 bs
      let p ← unpackMapN u s.1 [] s.2
      .ok (.vmap p.1, p.2)
    else if marker = 0xD9 then do
      let s ← readSize 2 bs
      let p ← unpackMapN u s.1 [] s.2
      .ok (.vmap p.1, p.2)
    else if marker = 0xDC then do
      let s ← readSize 1 bs
      unpackStructure u s.1 s.2
    else if marker = 0xDD then do
      let s ← readSize 2 bs
      unpackStructure u s.1 s.2
    else if marker = 0xC1 then do
      let p ← readBytes 8 bs
      .ok (.vfloat (beNat p.1), p.2)
    else .error "Unknown Packstream marker"

/-- `Unpacker.Unpack` (packstream.go lines 277-283), fueled; every recursive
call strictly decreases the fuel, and `unpack` below supplies fuel that the
byte-consuming recursion can never exhaust. -/
def unpackFuel : Nat → Bytes → Except String (GoVal × Bytes)
  | 0, _ => .error "Unpacker out of fuel"
  | fuel + 1, bs => do
      let p ← readByte bs
      unpackValue (unpackFuel fuel) p.1 p.2

/-- `Unpacker.Unpack` on a byte string: `2·|bs| + 1` fuel dominates the
recursion (each decoding step consumes at least one byte). -/
def unpack (bs : Bytes) : Except String (GoVal × Bytes) :=
  unpackFuel (2 * bs.length + 1) bs

/-- A structural size on `GoVal`, the induction measure for the codec
proofs. -/
def gsize : GoVal → Nat
  | .vnull | .vbool _ | .vint _ | .vfloat _ | .vbyte _ | .vstr _ | .vbytes _ => 1
  | .vlist xs => 1 + gsizeList xs
  | .vmap m => 1 + gsizeEntries m
where
  gsizeList : List GoVal → Nat
    | [] => 0
    | x :: xs => 1 + gsize x + gsizeList xs
  gsizeEntries : List (Bytes × GoVal) → Nat
    | [] => 0
    | (_, v) :: rest => 1 + gsize v + gsizeEntries rest

/-- The supported PackStream domain once floats and structs are excluded:
null, booleans, `int64`-ranged integers, byte strings, lists and maps with
distinct string keys, with every size below the 16-bit encoding limit. -/
inductive Dom : GoVal → Prop where
  | null : Dom .vnull
  | bool (b : Bool) : Dom (.vbool b)
  | int (i : Int) : -(2 ^ 63) ≤ i → i < 2 ^ 63 → Dom (.vint i)
  | str (s : Bytes) : s.length < 65536 → (∀ b ∈ s, b < 256) → Dom (.vstr s)
  | list (xs : List GoVal) : xs.length < 65536 → (∀ x ∈ xs, Dom x) → Dom (.vlist xs)
  | map (m : List (Bytes × GoVal)) : m.length < 65536 →
      (m.map Prod.fst).Nodup →
      (∀ kv ∈ m, kv.1.length < 65536) →
      (∀ kv ∈ m, ∀ b ∈ kv.1, b < 256) →
      (∀ kv ∈ m, Dom kv.2) →
      Dom (.vmap m)

/-! ## request.go: message packing and chunked framing (C2) -/

/-- `packMessage` (request.go lines 178-195): the tiny-struct header
`0xB0 | arity`, the signature byte, then each field packed. -/
def packMessage (signature : Nat) (fields : List GoVal) : Except String Bytes :=
  if fields.length < 16 then do
    let body ← pack.packElems fields
    .ok ((0xB0 + fields.length) :: signature :: body)
  else .error "too many fields in message structure"

/-- The outbound framing of `sendRequest` (request.go lines 23-37) and of
`writeChunkedMessage` (part_017 lines 586-605): ONE chunk header holding
`uint16(len(msg))` (the length reduced mod 2^16), the whole message, and
the zero-length terminator. The code never splits the message. -/
def chunkWrite (msg : Bytes) : Bytes :=
  (msg.length / 256 % 256) :: (msg.length % 256) :: (msg ++ [0, 0])

/-- The chunk-reading loop of `readChunkedMessage` (request.go lines
212-236): read big-endian `u16` length prefixes and accumulate chunk bodies
until a zero-length chunk. -/
def readChunks : Bytes → Except String Bytes
  | b0 :: b1 :: rest =>
      let size := b0 * 256 + b1
      if size = 0 then .ok []
      else if rest.length < size then .error "error reading chunk data"
      else do
        let tail ← readChunks (rest.drop size)
        .ok (rest.take size ++ tail)
  | _ => .error "connection closed while reading chunk header"
termination_by bs => bs.length
decreasing_by simp [List.length_drop]; omega

/-- `readChunkedMessage` (request.go lines 202-268): reassemble the chunks,
PackStream-decode the concatenation, and take it apart as
`[signature, fields]`. -/
def readChunkedMessage (bs : Bytes) : Except String (Nat × List GoVal) := do
  let data ← readChunks bs
  let p ← unpack data
  match p.1 with
  | .vlist (v0 :: v1 :: _) =>
    match v0 with
    | .vbyte sig =>
      match v1 with
      | .vlist fields => .ok (sig, fields)
      | .vnull => .ok (sig, [])
      | _ => .error "invalid message fields type"
    | _ => .error "invalid message signature type"
  | _ => .error "invalid message structure"

/-- The outbound byte stream `sendRequest` (request.go lines 18-37) writes
for a message: pack, then frame. -/
def sendFrame (signature : Nat) (fields : List GoVal) : Except String Bytes := do
  let msg ← packMessage signature fields
  .ok (chunkWrite msg)

/-! ## part_017: streamingConnectionWrapper.Close (C4) -/

/-- The fields of `streamingConnectionWrapper` that `Close` consults
(src/unnamed/part_017 lines 327-345, the `has_more`-aware variant). -/
structure WrapperState where
  exhausted : Bool
  closed : Bool
  lastErr : Option String
  deriving DecidableEq, Repr

/-- The UsageError message `Close` passes to the pool for an unconsumed stream. -/
def streamNotDrainedMsg : String :=
  "Stream closed before being fully consumed"

/-- `streamingConnectionWrapper.Close` (src/unnamed/part_017 lines 607-626).
Returns the new wrapper state together with the `netPool.Put` call it makes:
`none` when no Put happens (wrapper already closed), otherwise
`some putErr` where `putErr` is the Go error handed to the pool. -/
def closeWrapper (s : WrapperState) : WrapperState × Option (Option String) :=
  if s.closed then (s, none)
  else
    let wasExhausted := s.exhausted
    let s' : WrapperState := { exhausted := true, closed := true, lastErr := s.lastErr }
    let putErr : Option String :=
      match s.lastErr with
      | some e => some e
      | none => if wasExhausted then none else some streamNotDrainedMsg
    (s', some putErr)

/-- Modelled from the spec: the connection pool itself is the external
`netpool` dependency and is not part of src/. Spec section 4.6 gives Put's
behavior: "if `opErr != nil` OR `conn.dirty` OR `age > ConnectionLifetime`
..., close the socket; else push back", and a closed socket means the next
Get dials a fresh connection, which performs the full section 4.4
handshake before any reuse. `poolPutReusesSocket` is true exactly when the
returned connection is pushed back and its socket may be reused without a
new handshake. -/
def poolPutReusesSocket (opErr : Option String) (dirty stale : Bool) : Bool :=
  opErr.isNone && !dirty && !stale

/-! ## reactive.go / reactive_operators.go: Take (C6) -/

/-- An event of the reactive stream (reactive.go `RecordEvent`): a record,
an error, or completion with an optional summary. Record contents are
irrelevant to the operators' control flow and are abstracted to a tag. -/
inductive RecordEvent where
  | recEv (r : Nat)
  | errEv (e : String)
  | complete (summary : Option Nat)
  deriving DecidableEq, Repr

/-- `takeOperator.apply` (reactive_operators.go lines 259-289) as a function
of the sequence of events read from its input channel, with the running
`count`: a record event arriving once `count >= n` makes the operator emit
a synthetic Complete event and return (nothing later is forwarded); other
record events are forwarded with the count incremented; non-record events
are forwarded unchanged. The channels connecting operators deliver events
in order whatever their `BufferSize`, so the operator is a function of the
event sequence alone. -/
def takeApply (n : Int) (count : Int) : List RecordEvent → List RecordEvent
  | [] => []
  | .recEv r :: rest =>
      if count ≥ n then [.complete none]
      else .recEv r :: takeApply n (count + 1) rest
  | e :: rest => e :: takeApply n count rest

/-- The events `emitFromSource` (reactive.go lines 305-351) feeds into the
operator chain for a cursor that yields the records `recs` and then
completes with summary `summary`. -/
def sourceEvents (recs : List Nat) (summary : Nat) : List RecordEvent :=
  recs.map .recEv ++ [.complete (some summary)]

/-- The terminal callback a subscriber receives. -/
inductive Terminal where
  | onError (e : String)
  | onComplete (summary : Option Nat)
  deriving DecidableEq, Repr

/-- The subscriber loop of `Subscribe` (reactive.go lines 207-232): `OnNext`
for each record event until the first error or completion event, which is
the single terminal callback; a closed channel ends with no callback.
Returns the `OnNext` records in order and the terminal callback. -/
def subscriberRun : List RecordEvent → List Nat × Option Terminal
  | [] => ([], none)
  | .recEv r :: rest =>
      let p := subscriberRun rest
      (r :: p.1, p.2)
  | .errEv e :: _ => ([], some (.onError e))
  | .complete s :: _ => ([], some (.onComplete s))

/-! ## result.go: StreamingResult and Single (C8) -/

/-- The cursor-facing model of a `StreamConnection` (result.go lines 73-80):
the records the server still has, served one per `PullNext`, then a
terminal summary (summaries are abstracted to `0`). -/
structure StreamConn where
  recs : List Nat
  deriving DecidableEq, Repr

/-- `PullNext` of the model connection: `(record?, summary?, rest)`. A
record while any remain, then the terminal summary. -/
def pullNext (c : StreamConn) : Option Nat × Option Nat × StreamConn :=
  match c.recs with
  | r :: rest => (some r, none, ⟨rest⟩)
  | [] => (none, some 0, ⟨[]⟩)

/-- The mutable state of `StreamingResult` (result.go lines 57-70). -/
structure StreamingResult where
  conn : StreamConn
  currentRec : Option Nat
  peekedRec : Option Nat
  hasPeeked : Bool
  summary : Option Nat
  err : Option String
  closed : Bool
  deriving DecidableEq, Repr

/-- A fresh streaming result over a connection with records `recs`
(`NewStreamingResult`, result.go lines 83-90). -/
def initResult (recs : List Nat) : StreamingResult :=
  ⟨⟨recs⟩, none, none, false, none, none, false⟩

/-- `StreamingResult.Next` (result.go lines 102-123). -/
def srNext (r : StreamingResult) : StreamingResult × Bool :=
  if r.err.isSome || r.closed then (r, false)
  else if r.hasPeeked then
    let r' := { r with currentRec := r.peekedRec, peekedRec := none, hasPeeked := false }
    (r', r'.currentRec.isSome)
  else
    let p := pullNext r.conn
    let r' := { r with currentRec := p.1, summary := p.2.1, err := none, conn := p.2.2 }
    if r'.summary.isSome then ({ r' with closed := true }, false)
    else (r', r'.currentRec.isSome && r'.err.isNone)

/-- The `for r.Next(ctx) {}` drain loop of `Consume` (result.go lines
217-219), fueled; `Consume` passes fuel exceeding the number of possible
`Next` = true steps, so the fuel is never exhausted. -/
def drainLoop : Nat → StreamingResult → StreamingResult
  | 0, r => r
  | fuel + 1, r =>
      let p := srNext r
      if p.2 then drainLoop fuel p.1 else p.1

/-- `StreamingResult.Consume` (result.go lines 211-241): drain, close, and
return the summary (building a fresh one when none was delivered). -/
def srConsume (r : StreamingResult) : StreamingResult × Except String Nat :=
  if r.err.isSome then (r, .error (r.err.getD ""))
  else
    let r1 := drainLoop (r.conn.recs.length + 2) r
    if r1.err.isSome then (r1, .error (r1.err.getD ""))
    else
      let r2 := { r1 with closed := true, summary := some (r1.summary.getD 0) }
      (r2, .ok (r1.summary.getD 0))

/-- `StreamingResult.Single` (result.go lines 187-209). -/
def srSingle (r : StreamingResult) : StreamingResult × Except String (Option Nat) :=
  let p1 := srNext r
  if ¬ p1.2 then
    if p1.1.err.isSome then (p1.1, .error (p1.1.err.getD ""))
    else (p1.1, .error "Result contains no records")
  else
    let single := p1.1.currentRec
    let p2 := srNext p1.1
    if p2.2 then
      let p3 := srConsume p2.1
      (p3.1, .error "Result contains more than one record")
    else if p2.1.err.isSome then (p2.1, .error (p2.1.err.getD ""))
    else (p2.1, .ok single)

/-! ## part_016: retry coordinator (C7)

Go `float64` arithmetic is modeled by exact rational arithmetic: the
spec's delay formula is about these real-number values, and no claim
depends on rounding. Durations are rational nanosecond counts. -/

/-- ASCII lower-casing of one byte, as in part_016's `contains`. -/
def asciiLower (c : Nat) : Nat :=
  if 65 ≤ c ∧ c ≤ 90 then c + 32 else c

/-- Go `strings.ToLower` (the code only lower-cases ASCII error codes). -/
def lowerBytes (s : Bytes) : Bytes :=
  s.map asciiLower

/-- Go `strings.Contains(s, sub)`. -/
def strContains (s sub : Bytes) : Bool :=
  (List.range (s.length + 1)).any fun i => ((s.drop i).take sub.length) = sub

/-- part_016's `contains(s, substrs...)` (lines 119-145): case-insensitive
ASCII search for any of the substrings; empty substrings never match. -/
def containsCI (s : Bytes) (subs : List Bytes) : Bool :=
  subs.any fun sub =>
    decide (0 < sub.length) && decide (sub.length ≤ s.length) &&
      ((List.range (s.length - sub.length + 1)).any fun i =>
        ((s.drop i).take sub.length).map asciiLower = sub.map asciiLower)

/-- `DatabaseError.IsTransient` (result.go lines 279-287). -/
def isTransient (code msg : Bytes) : Bool :=
  let c := lowerBytes code
  let m := lowerBytes msg
  strContains c (asciiBytes "transient") || strContains m (asciiBytes "timeout") ||
    strContains m (asciiBytes "unavailable") || strContains m (asciiBytes "temporarily")

/-- `DatabaseError.IsClusterError` (result.go lines 290-299). -/
def isClusterError (code msg : Bytes) : Bool :=
  let c := lowerBytes code
  let m := lowerBytes msg
  strContains c (asciiBytes "notaleader") || strContains c (asciiBytes "readonly") ||
    strContains m (asciiBytes "not a leader") || strContains m (asciiBytes "read-only") ||
    strContains m (asciiBytes "read only")

/-- `DatabaseError.IsConflict` (result.go lines 302-312). -/
def isConflict (code msg : Bytes) : Bool :=
  let c := lowerBytes code
  let m := lowerBytes msg
  strContains c (asciiBytes "deadlock") || strContains c (asciiBytes "conflict") ||
    strContains m (asciiBytes "deadlock") || strContains m (asciiBytes "conflicting transactions") ||
    strContains m (asciiBytes "lock timeout") || strContains m (asciiBytes "serialization failure")

/-- `DatabaseError.IsRetriable` (result.go lines 274-276). -/
def dbIsRetriable (code msg : Bytes) : Bool :=
  isTransient code msg || isClusterError code msg || isConflict code msg

/-- The errors `IsRetriable` distinguishes. -/
inductive GoError where
  | dbError (code msg : Bytes)
  | ctxCanceled
  | ctxDeadlineExceeded
  | otherError (msg : Bytes)
  deriving DecidableEq, Repr

/-- `IsRetriable` (part_016 lines 92-116). -/
def isRetriable : GoError → Bool
  | .dbError c m => dbIsRetriable c m
  | .ctxCanceled => false
  | .ctxDeadlineExceeded => false
  | .otherError m =>
      containsCI m
        [asciiBytes "connection refused", asciiBytes "connection reset",
         asciiBytes "broken pipe", asciiBytes "EOF", asciiBytes "timeout",
         asciiBytes "temporary failure"]

/-- `RetryPolicy` (part_016 lines 13-24). `maxAttempts` is a Go `int`; a
nonpositive value makes the loop body never run, exactly like 0 here. -/
structure RetryPolicy where
  maxAttempts : Nat
  baseDelay : ℚ
  maxDelay : ℚ
  multiplier : ℚ
  jitterFactor : ℚ

/-- `RetryPolicy.CalculateDelay` (part_016 lines 70-89), with the random
scalar `r` (Go `rand.Float64()`, drawn from [0,1)) passed explicitly. -/
def calculateDelay (p : RetryPolicy) (attempt : Nat) (r : ℚ) : ℚ :=
  let a := if attempt ≤ 0 then 1 else attempt
  let baseExp := p.baseDelay * p.multiplier ^ (a - 1)
  let capped := min baseExp p.maxDelay
  let jitter := max 0 (min 1 p.jitterFactor)
  capped * (1 - jitter + r * jitter)

/-- How a `Retry` run ends: success, a fatal (non-retriable) error, or the
`RetryError` wrapping the last error, the attempt count and the cumulative
delay (part_016 lines 35-48 and 211-215). -/
inductive RetryOutcome where
  | success (attempts : Nat)
  | fatal (e : GoError) (attempts : Nat)
  | exhausted (lastErr : Option GoError) (attempts : Nat) (cumulativeDelay : ℚ)

/-- The attempt loop of `Retry` (part_016 lines 153-216) from attempt
number `attempt`, carrying `lastErr` and the cumulative delay `cum`
accumulated so far. `fn a` is the outcome of the a-th invocation (`none`
means success); `rand a` the random scalar used for the delay after
attempt `a`. Context cancellation is not modeled. Returns the number of
`fn` invocations made from here on, the slept delay added from here on,
and the outcome. -/
def retryFrom (p : RetryPolicy) (fn : Nat → Option GoError) (rand : Nat → ℚ)
    (attempt : Nat) (lastErr : Option GoError) (cum : ℚ) : Nat × ℚ × RetryOutcome :=
  if p.maxAttempts < attempt then (0, 0, .exhausted lastErr p.maxAttempts cum)
  else
    match fn attempt with
    | none => (1, 0, .success attempt)
    | some e =>
      if ¬ isRetriable e then (1, 0, .fatal e attempt)
      else if p.maxAttempts ≤ attempt then (1, 0, .exhausted (some e) p.maxAttempts cum)
      else
        let d := calculateDelay p attempt (rand attempt)
        let rest := retryFrom p fn rand (attempt + 1) (some e) (cum + d)
        (rest.1 + 1, rest.2.1 + d, rest.2.2)
termination_by p.maxAttempts + 1 - attempt
decreasing_by omega

/-- `Retry` (part_016 lines 148-216): run the loop from attempt 1. -/
def retryRun (p : RetryPolicy) (fn : Nat → Option GoError) (rand : Nat → ℚ) :
    Nat × ℚ × RetryOutcome :=
  retryFrom p fn rand 1 none 0

/-! # Theorems -/

/-! ## Association-list map facts -/

theorem mapGet_mapSet_self (m : GoMap) (k : Bytes) (v : MVal) :
    mapGet (mapSet m k v) k = some v := by
  induction m with
  | nil => simp [mapSet, mapGet]
  | cons kv rest ih =>
      obtain ⟨k', v'⟩ := kv
      by_cases h : k' = k <;> simp [mapSet, mapGet, h, ih]

theorem mapGet_mapSet_ne (m : GoMap) (k : Bytes) (v : MVal) (k' : Bytes) (h : k ≠ k') :
    mapGet (mapSet m k v) k' = mapGet m k' := by
  have h' : ¬(k' = k) := fun hh => h hh.symm
  induction m with
  | nil => simp [mapSet, mapGet, h, h']
  | cons kv rest ih =>
      obtain ⟨k0, v0⟩ := kv
      by_cases h0 : k0 = k
      · subst h0
        simp [mapSet, mapGet, h, h']
      · by_cases h1 : k0 = k' <;> simp [mapSet, mapGet, h0, h1, h, h', ih]

theorem mapGet_mapDel_self (m : GoMap) (k : Bytes) :
    mapGet (mapDel m k) k = none := by
  induction m with
  | nil => simp [mapDel, mapGet]
  | cons kv rest ih =>
      obtain ⟨k', v'⟩ := kv
      by_cases h : k' = k <;> simp [mapDel, mapGet, h, ih]

theorem mapGet_mapDel_ne (m : GoMap) (k k' : Bytes) (h : k ≠ k') :
    mapGet (mapDel m k) k' = mapGet m k' := by
  have h' : ¬(k' = k) := fun hh => h hh.symm
  induction m with
  | nil => simp [mapDel, mapGet]
  | cons kv rest ih =>
      obtain ⟨k0, v0⟩ := kv
      by_cases h0 : k0 = k
      · subst h0
        simp [mapDel, mapGet, h, h', ih]
      · by_cases h1 : k0 = k' <;> simp [mapDel, mapGet, h0, h1, h, h', ih]

theorem storeGet_storeSet_self (st : Store) (a : Nat) (m : GoMap) :
    storeGet (storeSet st a m) a = m := by
  induction st with
  | nil => simp [storeSet, storeGet]
  | cons cell rest ih =>
      obtain ⟨a', m'⟩ := cell
      by_cases h : a' = a <;> simp [storeSet, storeGet, h, ih]

/-! ## NewRun / NewBegin metadata lemmas (C5, C10) -/

theorem newRunMeta_truncates (m : GoMap) (s : Bytes)
    (h : mapGet m (asciiBytes "mode") = some (.mstr s)) (hl : s.length > 1) :
    mapGet (newRunMeta m) (asciiBytes "mode") = some (.mstr (s.take 1)) := by
  simp only [newRunMeta, h]
  rw [if_pos hl, mapGet_mapSet_self]

theorem beginStep1_mode (m : GoMap) (h : mapGet m (asciiBytes "mode") = none) :
    mapGet (beginStep1 m) (asciiBytes "mode") = some (.mstr (asciiBytes "write")) := by
  unfold beginStep1
  rw [if_pos h, mapGet_mapSet_self]

theorem beginStep1_other (m : GoMap) (k : Bytes) (h : asciiBytes "mode" ≠ k) :
    mapGet (beginStep1 m) k = mapGet m k := by
  unfold beginStep1
  by_cases h0 : mapGet m (asciiBytes "mode") = none
  · rw [if_pos h0, mapGet_mapSet_ne _ _ _ _ h]
  · rw [if_neg h0]

theorem newBeginMeta_defaultMode (m : GoMap) (h : mapGet m (asciiBytes "mode") = none) :
    mapGet (newBeginMeta m) (asciiBytes "mode") = some (.mstr (asciiBytes "write")) := by
  unfold newBeginMeta
  have hmode := beginStep1_mode m h
  by_cases h1 : isMemgraphAdapter (beginStep1 m)
  · rw [if_pos h1, mapGet_mapDel_ne _ _ _ (by decide)]
    exact hmode
  · rw [if_neg h1]
    by_cases h2 : modeLen1 (beginStep1 m)
    · rw [if_pos h2]
      by_cases h3 : mapGet (beginStep1 m) (asciiBytes "db") = none
      · rw [if_pos h3, mapGet_mapSet_ne _ _ _ _ (by decide)]
        exact hmode
      · rw [if_neg h3]
        exact hmode
    · rw [if_neg h2]
      exact hmode

theorem newBeginMeta_memgraphDeletesDb (m : GoMap)
    (h : mapGet m (asciiBytes "adapter") = some (.mstr (asciiBytes "memgraph"))) :
    mapGet (newBeginMeta m) (asciiBytes "db") = none := by
  unfold newBeginMeta
  have hadp : mapGet (beginStep1 m) (asciiBytes "adapter") =
      some (.mstr (asciiBytes "memgraph")) := by
    rw [beginStep1_other m _ (by decide)]
    exact h
  have h1 : isMemgraphAdapter (beginStep1 m) = true := by
    simp [isMemgraphAdapter, hadp]
  rw [if_pos h1, mapGet_mapDel_self]

theorem newBeginMeta_injectDb (m : GoMap) (a ms : Bytes)
    (hadp : mapGet m (asciiBytes "adapter") = some (.mstr a))
    (hane : a ≠ asciiBytes "memgraph")
    (hmode : mapGet m (asciiBytes "mode") = some (.mstr ms)) (hms : ms.length = 1)
    (hdb : mapGet m (asciiBytes "db") = none) :
    mapGet (newBeginMeta m) (asciiBytes "db") = some (.mstr (asciiBytes "neo4j")) := by
  unfold newBeginMeta
  have hstep : beginStep1 m = m := by
    unfold beginStep1
    rw [if_neg (by simp [hmode])]
  rw [hstep]
  have h1 : isMemgraphAdapter m = false := by
    simp [isMemgraphAdapter, hadp, hane]
  have h2 : modeLen1 m = true := by
    simp [modeLen1, hmode, hms]
  rw [if_neg (by simp [h1]), if_pos h2, if_pos hdb, mapGet_mapSet_self]

/-- C5 amended: constructing BEGIN defaults `mode` to "write" when absent
and removes `db` for the memgraph adapter, but injects `db = "neo4j"` only
when the `mode` value is a string of length exactly 1 (so never after the
"write" default); with a single-character mode, a non-memgraph adapter and
no `db` set, the injection does happen. -/
theorem newBegin_metadata_amended :
    ∀ m : GoMap,
      (mapGet m (asciiBytes "mode") = none →
        mapGet (newBeginMeta m) (asciiBytes "mode") = some (.mstr (asciiBytes "write"))) ∧
      (mapGet m (asciiBytes "adapter") = some (.mstr (asciiBytes "memgraph")) →
        mapGet (newBeginMeta m) (asciiBytes "db") = none) ∧
      (∀ ms, mapGet m (asciiBytes "adapter") = some (.mstr (asciiBytes "neo4j")) →
        mapGet m (asciiBytes "mode") = some (.mstr ms) → ms.length = 1 →
        mapGet m (asciiBytes "db") = none →
        mapGet (newBeginMeta m) (asciiBytes "db") = some (.mstr (asciiBytes "neo4j"))) ∧
      (mapGet m (asciiBytes "mode") = none →
        mapGet m (asciiBytes "adapter") = some (.mstr (asciiBytes "neo4j")) →
        mapGet m (asciiBytes "db") = none →
        mapGet (newBeginMeta m) (asciiBytes "db") = none) := by
  intro m
  refine ⟨newBeginMeta_defaultMode m, newBeginMeta_memgraphDeletesDb m, ?_, ?_⟩
  · intro ms hadp hmode hms hdb
    exact newBeginMeta_injectDb m _ ms hadp (by decide) hmode hms hdb
  · intro hmode hadp hdb
    unfold newBeginMeta
    have hstepmode := beginStep1_mode m hmode
    have hadp1 : mapGet (beginStep1 m) (asciiBytes "adapter") =
        some (.mstr (asciiBytes "neo4j")) := by
      rw [beginStep1_other m _ (by decide)]
      exact hadp
    have hdb1 : mapGet (beginStep1 m) (asciiBytes "db") = none := by
      rw [beginStep1_other m _ (by decide)]
      exact hdb
    have h1 : isMemgraphAdapter (beginStep1 m) = false := by
      simp only [isMemgraphAdapter, hadp1]
      decide
    have h2 : modeLen1 (beginStep1 m) = false := by
      simp only [modeLen1, hstepmode]
      decide
    rw [if_neg (by simp [h1]), if_neg (by simp [h2])]
    exact hdb1

/-- C5 counterexample: metadata naming the neo4j adapter with no `mode` and
no `db` key; after `NewBegin` the mode has defaulted to "write" and still
no `db = "neo4j"` was injected, against the claim that the neo4j adapter
always receives one. -/
theorem newBegin_noDbInjected :
    mapGet ([(asciiBytes "adapter", MVal.mstr (asciiBytes "neo4j"))] : GoMap)
        (asciiBytes "db") = none ∧
    mapGet (newBeginMeta [(asciiBytes "adapter", MVal.mstr (asciiBytes "neo4j"))])
        (asciiBytes "mode") = some (.mstr (asciiBytes "write")) ∧
    mapGet (newBeginMeta [(asciiBytes "adapter", MVal.mstr (asciiBytes "neo4j"))])
        (asciiBytes "db") = none := by
  refine ⟨by decide, by decide, by decide⟩

/-- C5 witness: a concrete single-character-mode metadata map where the
amended claim's injection branch fires. -/
theorem newBegin_metadata_amended_witness :
    mapGet (newBeginMeta [(asciiBytes "adapter", MVal.mstr (asciiBytes "neo4j")),
        (asciiBytes "mode", MVal.mstr (asciiBytes "w"))]) (asciiBytes "db") =
      some (.mstr (asciiBytes "neo4j")) :=
  ((newBegin_metadata_amended
      [(asciiBytes "adapter", MVal.mstr (asciiBytes "neo4j")),
       (asciiBytes "mode", MVal.mstr (asciiBytes "w"))]).2.2.1
    (asciiBytes "w") (by decide) (by decide) (by decide) (by decide))

/-- C10: `NewRun` and `NewBegin` mutate the caller-supplied metadata map in
place: the message stores the caller's own map reference (the returned
address is the argument address), and after the call the caller's map holds
the truncated one-character mode (NewRun), the inserted default
`mode = "write"`, the deleted `db` key for memgraph, or the injected
`db = "neo4j"` (NewBegin). -/
theorem messages_mutateCallerMap :
    (∀ (st : Store) (a : Nat) (s : Bytes),
      mapGet (storeGet st a) (asciiBytes "mode") = some (.mstr s) → s.length > 1 →
        (newRun st (some a)).2 = a ∧
        mapGet (storeGet (newRun st (some a)).1 a) (asciiBytes "mode") =
          some (.mstr (s.take 1))) ∧
    (∀ (st : Store) (a : Nat),
      (newBegin st (some a)).2 = a ∧
      storeGet (newBegin st (some a)).1 a = newBeginMeta (storeGet st a)) ∧
    (∀ (st : Store) (a : Nat),
      mapGet (storeGet st a) (asciiBytes "mode") = none →
        mapGet (storeGet (newBegin st (some a)).1 a) (asciiBytes "mode") =
          some (.mstr (asciiBytes "write"))) ∧
    (∀ (st : Store) (a : Nat),
      mapGet (storeGet st a) (asciiBytes "adapter") = some (.mstr (asciiBytes "memgraph")) →
        mapGet (storeGet (newBegin st (some a)).1 a) (asciiBytes "db") = none) ∧
    (∀ (st : Store) (a : Nat) (ms : Bytes),
      mapGet (storeGet st a) (asciiBytes "adapter") = some (.mstr (asciiBytes "neo4j")) →
      mapGet (storeGet st a) (asciiBytes "mode") = some (.mstr ms) → ms.length = 1 →
      mapGet (storeGet st a) (asciiBytes "db") = none →
        mapGet (storeGet (newBegin st (some a)).1 a) (asciiBytes "db") =
          some (.mstr (asciiBytes "neo4j"))) := by
  refine ⟨?_, ?_, ?_, ?_, ?_⟩
  · intro st a s h hl
    refine ⟨rfl, ?_⟩
    show mapGet (storeGet (storeSet st a (newRunMeta (storeGet st a))) a) _ = _
    rw [storeGet_storeSet_self]
    exact newRunMeta_truncates _ s h hl
  · intro st a
    exact ⟨rfl, storeGet_storeSet_self ..⟩
  · intro st a h
    show mapGet (storeGet (storeSet st a (newBeginMeta (storeGet st a))) a) _ = _
    rw [storeGet_storeSet_self]
    exact newBeginMeta_defaultMode _ h
  · intro st a h
    show mapGet (storeGet (storeSet st a (newBeginMeta (storeGet st a))) a) _ = _
    rw [storeGet_storeSet_self]
    exact newBeginMeta_memgraphDeletesDb _ h
  · intro st a ms hadp hmode hms hdb
    show mapGet (storeGet (storeSet st a (newBeginMeta (storeGet st a))) a) _ = _
    rw [storeGet_storeSet_self]
    exact newBeginMeta_injectDb _ _ ms hadp (by decide) hmode hms hdb

/-- C10 witness: a concrete store where `NewRun` truncates the caller's
mode string in place. -/
theorem messages_mutateCallerMap_witness :
    mapGet (storeGet (newRun [(0, [(asciiBytes "mode", MVal.mstr (asciiBytes "read"))])]
        (some 0)).1 0) (asciiBytes "mode") = some (.mstr (asciiBytes "r")) := by
  have h := (messages_mutateCallerMap.1
    [(0, [(asciiBytes "mode", MVal.mstr (asciiBytes "read"))])] 0
    (asciiBytes "read") (by decide) (by decide)).2
  simpa using h

/-! ## C3: version negotiation -/

/-- C3: `CheckVersion` reads `major = buf[3]`, `minor = buf[2]`, answers the
HTTP error exactly on (80, 84), succeeds exactly on (5, 8) and (5, 2) with
that pair as value, and answers the unsupported-version error everywhere
else; the 20-byte handshake proposes major 5 with minors 8 and 2 (then
zero padding) after the magic. -/
theorem checkVersion_negotiation :
    (∀ b0 b1 b2 b3 : Nat,
      (checkVersion b0 b1 b2 b3 = .error httpErrorMsg ↔ b3 = 80 ∧ b2 = 84) ∧
      (checkVersion b0 b1 b2 b3 = .ok (b3, b2) ↔ b3 = 5 ∧ (b2 = 8 ∨ b2 = 2)) ∧
      (∀ mm, checkVersion b0 b1 b2 b3 = .ok mm → mm = (b3, b2)) ∧
      (¬(b3 = 80 ∧ b2 = 84) → ¬(b3 = 5 ∧ (b2 = 8 ∨ b2 = 2)) →
        checkVersion b0 b1 b2 b3 = .error unsupportedMsg)) ∧
    handshakeBytes =
      [0x60, 0x60, 0xB0, 0x17] ++ versionProposal 5 8 ++ versionProposal 5 2 ++
        versionProposal 0 0 ++ versionProposal 0 0 ∧
    handshakeBytes.length = 20 := by
  refine ⟨fun b0 b1 b2 b3 => ?_, by decide, by decide⟩
  unfold checkVersion
  split_ifs with h1 h2 h3
  · obtain ⟨h80, h84⟩ := h1
    subst h80
    subst h84
    refine ⟨by simp, by simp, ?_, ?_⟩
    · intro mm hmm
      simp at hmm
    · intro hc _
      exact absurd ⟨rfl, rfl⟩ hc
  · refine ⟨?_, ?_, ?_, fun _ _ => rfl⟩
    · constructor
      · intro he
        exact absurd (by simpa using he) (by decide : ¬(unsupportedMsg = httpErrorMsg))
      · intro hc
        exact absurd hc h1
    · constructor
      · intro he
        simp at he
      · rintro ⟨h5, _⟩
        exact absurd h5 h2
    · intro mm hmm
      simp at hmm
  · refine ⟨?_, ?_, ?_, fun _ _ => rfl⟩
    · constructor
      · intro he
        exact absurd (by simpa using he) (by decide : ¬(unsupportedMsg = httpErrorMsg))
      · intro hc
        exact absurd hc h1
    · constructor
      · intro he
        simp at he
      · rintro ⟨_, h82⟩
        obtain ⟨h8, h2'⟩ := h3
        rcases h82 with h | h <;> omega
    · intro mm hmm
      simp at hmm
  · refine ⟨?_, ?_, ?_, ?_⟩
    · constructor
      · intro he
        simp at he
      · intro hc
        exact absurd hc h1
    · constructor
      · intro _
        exact ⟨by omega, by omega⟩
      · intro _
        rfl
    · intro mm hmm
      simp at hmm
      exact hmm.symm
    · intro _ hno
      exact absurd ⟨by omega, by omega⟩ hno

/-! ## C9: URL scheme SSL parameters -/

/-- C9: `SSLConnectionParams` of every resolved config is
`(secure, verify_cert) = (ssl || ssc, ssl && !ssc)`; the scheme modifier
`+ssl` resolves to (true, true), `+ssc` and its alias `+s` to
(true, false), for both adapters; `Address()` renders `host:port`. -/
theorem urlResolver_sslParams :
    (∀ ssl ssc : Bool, sslConnectionParams ssl ssc = (ssl || ssc, ssl && !ssc)) ∧
    schemeSSLParams (asciiBytes "neo4j+ssl") = some (true, true) ∧
    schemeSSLParams (asciiBytes "neo4j+ssc") = some (true, false) ∧
    schemeSSLParams (asciiBytes "neo4j+s") = some (true, false) ∧
    schemeSSLParams (asciiBytes "memgraph+ssl") = some (true, true) ∧
    schemeSSLParams (asciiBytes "memgraph+ssc") = some (true, false) ∧
    schemeSSLParams (asciiBytes "memgraph+s") = some (true, false) ∧
    (∀ (host : String) (port : Int), address host port = host ++ ":" ++ toString port) := by
  exact ⟨by decide, by decide, by decide, by decide, by decide, by decide, by decide,
    fun _ _ => rfl⟩

/-! ## C4: closing a streaming cursor before exhaustion -/

/-- C4: `streamingConnectionWrapper.Close` on a not-yet-closed wrapper: if
the stream is not exhausted, the connection goes back to the pool with a
non-nil error (the stream-not-drained UsageError, or the recorded last
error), so the spec-modelled pool Put discards the socket and any reuse
passes through a fresh dial and full handshake; closed after exhaustion
with no recorded error, the connection is put back clean and is reusable.
Either way the wrapper ends closed and exhausted. -/
theorem streamingClose_dirtyBeforeExhaustion :
    (∀ le : Option String, ∃ e : String,
      (closeWrapper ⟨false, false, le⟩).2 = some (some e) ∧
      poolPutReusesSocket (some e) false false = false) ∧
    ((closeWrapper ⟨true, false, none⟩).2 = some none ∧
      poolPutReusesSocket none false false = true) ∧
    (∀ (ex : Bool) (le : Option String),
      (closeWrapper ⟨ex, false, le⟩).1.closed = true ∧
      (closeWrapper ⟨ex, false, le⟩).1.exhausted = true) ∧
    (∀ s : WrapperState, s.closed = true → (closeWrapper s).2 = none) := by
  refine ⟨?_, by simp [closeWrapper, poolPutReusesSocket], ?_, ?_⟩
  · intro le
    cases le with
    | none => exact ⟨streamNotDrainedMsg, by simp [closeWrapper, poolPutReusesSocket]⟩
    | some e0 => exact ⟨e0, by simp [closeWrapper, poolPutReusesSocket]⟩
  · intro ex le
    simp [closeWrapper]
  · intro s hs
    simp [closeWrapper, hs]

/-! ## C6: the Take operator -/

theorem takeApply_budget (summary : Nat) :
    ∀ (recs : List Nat) (n count : Int), 0 ≤ count → count ≤ n →
      subscriberRun (takeApply n count (sourceEvents recs summary)) =
        (recs.take (n - count).toNat,
         some (.onComplete (if recs.length ≤ (n - count).toNat then some summary else none))) := by
  intro recs
  induction recs with
  | nil =>
      intro n count h0 h1
      simp [sourceEvents, takeApply, subscriberRun]
  | cons r rest ih =>
      intro n count h0 h1
      simp only [sourceEvents, List.map_cons, List.cons_append, takeApply]
      by_cases hc : count ≥ n
      · rw [if_pos hc]
        have hz : (n - count).toNat = 0 := by omega
        simp [subscriberRun, hz]
      · rw [if_neg hc]
        have h2 : count + 1 ≤ n := by omega
        have hrec := ih n (count + 1) (by omega) h2
        simp only [sourceEvents] at hrec
        have h3 : (n - count).toNat = (n - (count + 1)).toNat + 1 := by omega
        have h4 : (rest.length ≤ (n - (count + 1)).toNat) ↔
            (rest.length + 1 ≤ (n - (count + 1)).toNat + 1) := by omega
        simp only [subscriberRun, List.append_eq, hrec, h3, List.take_succ_cons,
          Prod.mk.injEq, Option.some.injEq, List.length_cons]
        exact ⟨trivial, by rw [if_congr h4 rfl rfl]⟩

/-- C6: over the ordered event stream of a source with records `recs` and a
terminal completion, `Take(n)` delivers to the subscriber exactly
`min n |recs|` records, in source order, followed by an `OnComplete`
terminal callback. `BufferSize` only sizes the connecting channels and does
not appear in the delivered sequence. -/
theorem takeOperator_minRecords :
    ∀ (recs : List Nat) (n : Nat) (summary : Nat),
      (subscriberRun (takeApply (n : Int) 0 (sourceEvents recs summary))).1 = recs.take n ∧
      ((subscriberRun (takeApply (n : Int) 0 (sourceEvents recs summary))).1).length =
        min n recs.length ∧
      ∃ s, (subscriberRun (takeApply (n : Int) 0 (sourceEvents recs summary))).2 =
        some (.onComplete s) := by
  intro recs n summary
  have h := takeApply_budget summary recs (n : Int) 0 le_rfl (by exact_mod_cast Nat.zero_le n)
  have hn : ((n : Int) - 0).toNat = n := by omega
  rw [hn] at h
  refine ⟨by rw [h], ?_, ?_⟩
  · rw [h]
    exact List.length_take n recs
  · exact ⟨_, by rw [h]⟩

/-! ## C8: Single on a streaming cursor -/

theorem drainLoop_fresh :
    ∀ (recs : List Nat) (fuel : Nat) (r : StreamingResult),
      r.err = none → r.closed = false → r.hasPeeked = false → r.conn.recs = recs →
      recs.length + 1 ≤ fuel →
      (drainLoop fuel r).conn.recs = [] ∧ (drainLoop fuel r).closed = true ∧
      (drainLoop fuel r).err = none := by
  intro recs
  induction recs with
  | nil =>
      intro fuel r herr hcl hpk hconn hfuel
      obtain ⟨f, rfl⟩ : ∃ f, fuel = f + 1 := ⟨fuel - 1, by omega⟩
      simp [drainLoop, srNext, pullNext, herr, hcl, hpk, hconn]
  | cons x rest ih =>
      intro fuel r herr hcl hpk hconn hfuel
      obtain ⟨f, rfl⟩ : ∃ f, fuel = f + 1 := ⟨fuel - 1, by omega⟩
      simp only [List.length_cons] at hfuel
      simp only [drainLoop, srNext, pullNext, herr, hcl, hpk, hconn]
      simp only [Option.isSome_none, Bool.or_self, Bool.false_eq_true, if_false,
        Option.isSome_some, Bool.and_self, if_true]
      exact ih f _ rfl rfl rfl rfl (by omega)

theorem srConsume_fresh (rest : List Nat) (cur : Option Nat) :
    (srConsume ⟨⟨rest⟩, cur, none, false, none, none, false⟩).1.conn.recs = [] ∧
    (srConsume ⟨⟨rest⟩, cur, none, false, none, none, false⟩).1.closed = true := by
  obtain ⟨hdc, hdcl, hde⟩ := drainLoop_fresh rest (rest.length + 2)
    ⟨⟨rest⟩, cur, none, false, none, none, false⟩ rfl rfl rfl rfl (by omega)
  unfold srConsume
  simp [hde, hdc]

/-- C8: `Single` on a streaming cursor returns the sole remaining record
when exactly one remains; with zero records it returns the no-records
UsageError; with more than one it returns the more-than-one UsageError
after draining the rest of the stream (the cursor ends with an empty
connection and closed). -/
theorem single_usage :
    (∀ r : Nat, (srSingle (initResult [r])).2 = .ok (some r)) ∧
    ((srSingle (initResult [])).2 = .error "Result contains no records") ∧
    (∀ (r1 r2 : Nat) (rest : List Nat),
      (srSingle (initResult (r1 :: r2 :: rest))).2 =
        .error "Result contains more than one record" ∧
      (srSingle (initResult (r1 :: r2 :: rest))).1.conn.recs = [] ∧
      (srSingle (initResult (r1 :: r2 :: rest))).1.closed = true) := by
  refine ⟨fun r => rfl, rfl, ?_⟩
  intro r1 r2 rest
  have hred : srSingle (initResult (r1 :: r2 :: rest)) =
      ((srConsume ⟨⟨rest⟩, some r2, none, false, none, none, false⟩).1,
        .error "Result contains more than one record") := by
    simp [srSingle, srNext, pullNext, initResult]
  obtain ⟨hc1, hc2⟩ := srConsume_fresh rest (some r2)
  rw [hred]
  exact ⟨rfl, hc1, hc2⟩

/-! ## C7: retry with MaxAttempts and always-retriable errors -/

theorem calculateDelay_bounds (p : RetryPolicy) (a : Nat) (r : ℚ)
    (hbase : 0 ≤ p.baseDelay) (hmult : 0 ≤ p.multiplier) (hmax : 0 ≤ p.maxDelay)
    (hr0 : 0 ≤ r) (hr1 : r < 1) :
    0 ≤ calculateDelay p a r ∧ calculateDelay p a r ≤ p.maxDelay := by
  simp only [calculateDelay]
  set e := (if a ≤ 0 then 1 else a) - 1 with he
  set capped := min (p.baseDelay * p.multiplier ^ e) p.maxDelay with hcap
  have hbe0 : 0 ≤ p.baseDelay * p.multiplier ^ e := mul_nonneg hbase (pow_nonneg hmult _)
  have hc0 : 0 ≤ capped := le_min hbe0 hmax
  have hcM : capped ≤ p.maxDelay := min_le_right _ _
  set j := max 0 (min 1 p.jitterFactor) with hj
  have hj0 : 0 ≤ j := le_max_left _ _
  have hj1 : j ≤ 1 := max_le (by norm_num) (min_le_left _ _)
  have hb0 : 0 ≤ 1 - j + r * j := by nlinarith
  have hb1 : 1 - j + r * j ≤ 1 := by nlinarith
  refine ⟨mul_nonneg hc0 hb0, ?_⟩
  calc capped * (1 - j + r * j) ≤ capped * 1 := by nlinarith
    _ = capped := mul_one capped
    _ ≤ p.maxDelay := hcM

theorem retryFrom_allRetriable (p : RetryPolicy) (fn : Nat → Option GoError) (rand : Nat → ℚ)
    (hfail : ∀ a, ∃ e, fn a = some e ∧ isRetriable e = true) :
    ∀ (k attempt : Nat) (lastErr : Option GoError) (cum : ℚ),
      p.maxAttempts = attempt + k → 1 ≤ attempt →
      (retryFrom p fn rand attempt lastErr cum).1 = k + 1 ∧
      (retryFrom p fn rand attempt lastErr cum).2.1 =
        ∑ a in Finset.Ico attempt p.maxAttempts, calculateDelay p a (rand a) ∧
      ∃ elast, fn p.maxAttempts = some elast ∧
        (retryFrom p fn rand attempt lastErr cum).2.2 =
          .exhausted (some elast) p.maxAttempts
            (cum + ∑ a in Finset.Ico attempt p.maxAttempts, calculateDelay p a (rand a)) := by
  intro k
  induction k with
  | zero =>
      intro attempt lastErr cum hmax hat
      obtain ⟨e, hfe, hre⟩ := hfail attempt
      rw [retryFrom]
      rw [if_neg (by omega)]
      simp only [hfe]
      rw [if_neg (by simp [hre]), if_pos (by omega)]
      have hico : Finset.Ico attempt p.maxAttempts = ∅ := by
        rw [Finset.Ico_eq_empty_iff]
        omega
      refine ⟨rfl, by simp [hico], e, by rw [hmax]; simpa using hfe, ?_⟩
      simp [hico, hmax]
  | succ k ih =>
      intro attempt lastErr cum hmax hat
      obtain ⟨e, hfe, hre⟩ := hfail attempt
      rw [retryFrom]
      rw [if_neg (by omega)]
      simp only [hfe]
      rw [if_neg (by simp [hre]), if_neg (by omega)]
      obtain ⟨ih1, ih2, elast, helast, ih3⟩ :=
        ih (attempt + 1) (some e) (cum + calculateDelay p attempt (rand attempt))
          (by omega) (by omega)
      have hsplit : ∑ a in Finset.Ico attempt p.maxAttempts, calculateDelay p a (rand a) =
          calculateDelay p attempt (rand attempt) +
            ∑ a in Finset.Ico (attempt + 1) p.maxAttempts, calculateDelay p a (rand a) :=
        Finset.sum_eq_sum_Ico_succ_bot (by omega) _
      refine ⟨by simp [ih1], ?_, elast, helast, ?_⟩
      · simp only [ih2, hsplit]
        ring
      · simp only [ih3, hsplit]
        congr 1
        ring

/-- C7: with MaxAttempts = k >= 1 and an operation that always fails with a
retriable error, `Retry` invokes the operation exactly k times, sleeps the
sum of `CalculateDelay(attempt)` for attempts 1..k-1 (each delay being
`min(MaxDelay, BaseDelay*Multiplier^(a-1)) * (1 - Jitter + r*Jitter)` for
the drawn scalar `r`), so the total sleep is at most `k * MaxDelay`, and
ends in the RetryError wrapping the last underlying error together with the
attempt count and the cumulative delay. -/
theorem retry_exhaustsAttempts (p : RetryPolicy) (fn : Nat → Option GoError) (rand : Nat → ℚ)
    (hk : 1 ≤ p.maxAttempts)
    (hfail : ∀ a, ∃ e, fn a = some e ∧ isRetriable e = true)
    (hrand : ∀ a, 0 ≤ rand a ∧ rand a < 1)
    (hbase : 0 ≤ p.baseDelay) (hmult : 0 ≤ p.multiplier) (hmax : 0 ≤ p.maxDelay) :
    (retryRun p fn rand).1 = p.maxAttempts ∧
    (retryRun p fn rand).2.1 =
      ∑ a in Finset.Ico 1 p.maxAttempts, calculateDelay p a (rand a) ∧
    (retryRun p fn rand).2.1 ≤ (p.maxAttempts : ℚ) * p.maxDelay ∧
    (∃ elast, fn p.maxAttempts = some elast ∧
      (retryRun p fn rand).2.2 =
        .exhausted (some elast) p.maxAttempts (retryRun p fn rand).2.1) ∧
    (0 ≤ p.jitterFactor → p.jitterFactor ≤ 1 → ∀ (a : Nat) (r : ℚ), 1 ≤ a →
      calculateDelay p a r =
        min p.maxDelay (p.baseDelay * p.multiplier ^ (a - 1)) *
          (1 - p.jitterFactor + r * p.jitterFactor)) := by
  obtain ⟨h1, h2, elast, helast, h3⟩ :=
    retryFrom_allRetriable p fn rand hfail (p.maxAttempts - 1) 1 none 0 (by omega) le_rfl
  have hsum : ∑ a in Finset.Ico 1 p.maxAttempts, calculateDelay p a (rand a) ≤
      (p.maxAttempts : ℚ) * p.maxDelay := by
    calc ∑ a in Finset.Ico 1 p.maxAttempts, calculateDelay p a (rand a)
        ≤ ∑ _a in Finset.Ico 1 p.maxAttempts, p.maxDelay :=
          Finset.sum_le_sum fun a _ =>
            (calculateDelay_bounds p a (rand a) hbase hmult hmax
              (hrand a).1 (hrand a).2).2
      _ = ((p.maxAttempts - 1 : Nat) : ℚ) * p.maxDelay := by
          rw [Finset.sum_const, Nat.card_Ico]
          simp [nsmul_eq_mul]
      _ ≤ (p.maxAttempts : ℚ) * p.maxDelay := by
          have hle : ((p.maxAttempts - 1 : Nat) : ℚ) ≤ (p.maxAttempts : ℚ) := by
            exact_mod_cast Nat.sub_le p.maxAttempts 1
          exact mul_le_mul_of_nonneg_right hle hmax
  refine ⟨by rw [retryRun, h1]; omega, by rw [retryRun, h2], by rw [retryRun, h2]; exact hsum,
    ⟨elast, helast, by rw [retryRun, h3, h2]; simp⟩, ?_⟩
  intro hj0 hj1 a r ha
  simp only [calculateDelay]
  rw [if_neg (by omega), min_comm, max_eq_right (le_min (by norm_num) hj0)]
  rw [min_eq_right hj1]

/-- C7 witness: the concrete policy (3 attempts, base 100, cap 1000,
multiplier 2, full jitter) with a "timeout" network error and zero random
scalars makes exactly 3 invocations. -/
theorem retry_exhaustsAttempts_witness :
    (retryRun ⟨3, 100, 1000, 2, 1⟩
      (fun _ => some (.otherError (asciiBytes "timeout"))) (fun _ => 0)).1 = 3 :=
  (retry_exhaustsAttempts ⟨3, 100, 1000, 2, 1⟩
    (fun _ => some (.otherError (asciiBytes "timeout"))) (fun _ => 0)
    (by norm_num)
    (fun a => ⟨.otherError (asciiBytes "timeout"), rfl, by decide⟩)
    (fun a => ⟨le_refl 0, by norm_num⟩)
    (by norm_num) (by norm_num) (by norm_num)).1

/-! ## C2: chunked framing -/

theorem readChunks_chunkWrite (msg : Bytes) (h : msg.length ≤ 65535) :
    readChunks (chunkWrite msg) = .ok msg := by
  cases msg with
  | nil =>
      rw [chunkWrite, readChunks]
      simp
  | cons b bs =>
      rw [chunkWrite, readChunks]
      have hsize : (b :: bs).length / 256 % 256 * 256 + (b :: bs).length % 256 =
          (b :: bs).length := by
        omega
      rw [hsize]
      rw [if_neg (by simp), if_neg (by simp [List.length_append])]
      rw [List.take_left, List.drop_left, readChunks]
      show Except.ok (b :: (bs ++ ([] : Bytes))) = _
      rw [List.append_nil]

/-- C2 (the framing bug): the outbound framing writes the whole PackStream
encoding as a single chunk whose u16 length prefix is the length reduced
mod 2^16 and never splits. Reassembly therefore round-trips exactly the
messages of at most 65535 bytes; a concrete Bolt message whose encoding is
65536 bytes long (signature 0x10 with one 65531-byte string field) is
framed with a 0x0000 length prefix - the end-of-message marker - so
reading it back yields an empty message and a protocol error instead of
the message. -/
theorem chunking_truncatedAtU16 :
    (∀ msg : Bytes, msg.length ≤ 65535 → readChunks (chunkWrite msg) = .ok msg) ∧
    ∃ msg : Bytes,
      packMessage 0x10 [.vstr (List.replicate 65531 97)] = .ok msg ∧
      msg.length = 65536 ∧
      chunkWrite msg = 0 :: 0 :: (msg ++ [0, 0]) ∧
      readChunkedMessage (chunkWrite msg) =
        .error "Unexpected end of stream while reading byte" := by
  refine ⟨readChunks_chunkWrite, ?_⟩
  have hlen : (List.replicate 65531 97 : Bytes).length = 65531 :=
    List.length_replicate _ _
  have hstr : packString (List.replicate 65531 97) =
      .ok (0xD1 :: (pushUint16 65531 ++ List.replicate 65531 97)) := by
    unfold packString
    rw [hlen]
    rw [if_neg (by norm_num), if_neg (by norm_num), if_pos (by norm_num)]
  have hpk : packMessage 0x10 [.vstr (List.replicate 65531 97)] =
      .ok (0xB1 :: 0x10 :: ((0xD1 :: (pushUint16 65531 ++ List.replicate 65531 97)) ++ [])) := by
    unfold packMessage
    rw [if_pos (by norm_num)]
    simp only [pack.packElems, pack, hstr]
    rfl
  have hm1 : ((0xD1 :: (pushUint16 65531 ++ List.replicate 65531 97) : Bytes)).length
      = 65534 := by
    rw [List.length_cons, List.length_append, hlen,
      show (pushUint16 65531 : Bytes).length = 2 from rfl]
  have hml : ((0xB1 :: 0x10 ::
      ((0xD1 :: (pushUint16 65531 ++ List.replicate 65531 97)) ++ []) : Bytes)).length
      = 65536 := by
    rw [List.length_cons, List.length_cons, List.length_append, hm1, List.length_nil]
  have hcw : chunkWrite (0xB1 :: 0x10 ::
        ((0xD1 :: (pushUint16 65531 ++ List.replicate 65531 97)) ++ [])) =
      0 :: 0 :: ((0xB1 :: 0x10 ::
        ((0xD1 :: (pushUint16 65531 ++ List.replicate 65531 97)) ++ [])) ++ [0, 0]) := by
    show ((0xB1 :: 0x10 ::
        ((0xD1 :: (pushUint16 65531 ++ List.replicate 65531 97)) ++ [])).length / 256 % 256) ::
      ((0xB1 :: 0x10 ::
        ((0xD1 :: (pushUint16 65531 ++ List.replicate 65531 97)) ++ [])).length % 256) :: _ = _
    rw [hml]
  refine ⟨_, hpk, hml, hcw, ?_⟩
  rw [hcw]
  rw [readChunkedMessage]
  rw [show readChunks (0 :: 0 :: ((0xB1 :: 0x10 ::
      ((0xD1 :: (pushUint16 65531 ++ List.replicate 65531 97)) ++ [])) ++ [0, 0])) = .ok []
    from by rw [readChunks]; rw [if_pos (by norm_num)]]
  rfl

/-! ## C1: PackStream round-trip -/

theorem gsize_pos (v : GoVal) : 1 ≤ gsize v := by
  cases v <;> (simp only [gsize]; omega)

theorem gsizeList_bound (x : GoVal) :
    ∀ ys : List GoVal, x ∈ ys → gsize x < gsize.gsizeList ys + 1 := by
  intro ys
  induction ys with
  | nil => intro h; cases h
  | cons y ys ih =>
      intro h
      simp only [gsize.gsizeList]
      rcases List.mem_cons.mp h with rfl | h2
      · omega
      · have := ih h2; omega

theorem gsize_lt_of_mem_list (x : GoVal) (xs : List GoVal) (hx : x ∈ xs) :
    gsize x < gsize (.vlist xs) := by
  have h := gsizeList_bound x xs hx
  simp only [gsize]
  omega

theorem gsizeEntries_bound (kv : Bytes × GoVal) :
    ∀ m : List (Bytes × GoVal), kv ∈ m → gsize kv.2 < gsize.gsizeEntries m + 1 := by
  intro m
  induction m with
  | nil => intro h; cases h
  | cons p rest ih =>
      intro h
      obtain ⟨k, v⟩ := p
      simp only [gsize.gsizeEntries]
      rcases List.mem_cons.mp h with rfl | h2
      · have hr : gsize (k, v).2 = gsize v := rfl
        omega
      · have := ih h2; omega

theorem gsize_lt_of_mem_map (kv : Bytes × GoVal) (m : List (Bytes × GoVal)) (h : kv ∈ m) :
    gsize kv.2 < gsize (.vmap m) := by
  have hb := gsizeEntries_bound kv m h
  simp only [gsize]
  omega

theorem beNat_one (a : Nat) : beNat [a] = a := by
  simp [beNat]

theorem beNat_pushUint16 (n : Nat) (h : n < 65536) : beNat (pushUint16 n) = n := by
  simp [pushUint16, beNat]
  omega

theorem beNat_pushUint32 (n : Nat) (h : n < 4294967296) : beNat (pushUint32 n) = n := by
  simp [pushUint32, beNat]
  omega

theorem beNat_pushUint64 (n : Nat) (h : n < 18446744073709551616) :
    beNat (pushUint64 n) = n := by
  simp [pushUint64, beNat]
  omega

theorem readBytes_exact (s rest : Bytes) : readBytes s.length (s ++ rest) = .ok (s, rest) := by
  unfold readBytes
  rw [if_neg (by simp only [List.length_append]; omega), List.take_left, List.drop_left]

theorem readBytes_one (n : Nat) (t : Bytes) : readBytes 1 (n :: t) = .ok ([n], t) := by
  unfold readBytes
  rw [if_neg (by simp)]
  rfl

theorem readSize_one (n : Nat) (t : Bytes) : readSize 1 (n :: t) = .ok (n, t) := by
  unfold readSize
  rw [readBytes_one]
  simp [beNat_one, Bind.bind, Except.bind]

theorem readBytes_two (a b : Nat) (t : Bytes) : readBytes 2 (a :: b :: t) = .ok ([a, b], t) := by
  unfold readBytes
  rw [if_neg (by simp)]
  rfl

theorem readSize_two (n : Nat) (t : Bytes) (h : n < 65536) :
    readSize 2 (pushUint16 n ++ t) = .ok (n, t) := by
  unfold readSize
  rw [show (pushUint16 n ++ t : Bytes) = (n / 256 % 256) :: (n % 256) :: t from rfl]
  rw [readBytes_two]
  simp [beNat, Bind.bind, Except.bind]
  omega

theorem except_bind_ok {α β : Type} (x : α) (f : α → Except String β) :
    (Except.ok x >>= f) = f x := rfl

theorem except_bind_err {α β : Type} (e : String) (f : α → Except String β) :
    ((Except.error e : Except String α) >>= f) = Except.error e := rfl

theorem unpackFuel_cons (f : Nat) (b : Nat) (t : Bytes) :
    unpackFuel (f + 1) (b :: t) = unpackValue (unpackFuel f) b t := rfl

theorem unpackValue_tinyInt (u : Bytes → Except String (GoVal × Bytes)) (m : Nat)
    (bs : Bytes) (h : m < 0x80) : unpackValue u m bs = .ok (.vint m, bs) := by
  simp only [unpackValue]
  rw [if_pos h]

theorem unpackValue_negTinyInt (u : Bytes → Except String (GoVal × Bytes)) (m : Nat)
    (bs : Bytes) (h : 0xF0 ≤ m) : unpackValue u m bs = .ok (.vint ((m : Int) - 256), bs) := by
  simp only [unpackValue]
  rw [if_neg (by omega), if_pos h]

theorem unpackValue_tinyStr (u : Bytes → Except String (GoVal × Bytes)) (n : Nat)
    (bs : Bytes) (h : n < 16) :
    unpackValue u (0x80 + n) bs = (do
      let p ← readBytes n bs
      Except.ok (.vstr p.1, p.2)) := by
  simp only [unpackValue]
  rw [if_neg (by omega), if_neg (by omega)]
  rw [show (0x80 + n) / 16 * 16 = 0x80 from by omega, show (0x80 + n) % 16 = n from by omega]
  rw [if_pos rfl]

theorem unpackValue_tinyList (u : Bytes → Except String (GoVal × Bytes)) (n : Nat)
    (bs : Bytes) (h : n < 16) :
    unpackValue u (0x90 + n) bs = (do
      let p ← unpackN u n bs
      Except.ok (.vlist p.1, p.2)) := by
  simp only [unpackValue]
  rw [if_neg (by omega), if_neg (by omega)]
  rw [show (0x90 + n) / 16 * 16 = 0x90 from by omega, show (0x90 + n) % 16 = n from by omega]
  rw [if_neg (by omega), if_pos rfl]

theorem unpackValue_tinyMap (u : Bytes → Except String (GoVal × Bytes)) (n : Nat)
    (bs : Bytes) (h : n < 16) :
    unpackValue u (0xA0 + n) bs = (do
      let p ← unpackMapN u n [] bs
      Except.ok (.vmap p.1, p.2)) := by
  simp only [unpackValue]
  rw [if_neg (by omega), if_neg (by omega)]
  rw [show (0xA0 + n) / 16 * 16 = 0xA0 from by omega, show (0xA0 + n) % 16 = n from by omega]
  rw [if_neg (by omega), if_neg (by omega), if_pos rfl]

theorem unpackValue_C8 (u : Bytes → Except String (GoVal × Bytes)) (bs : Bytes) :
    unpackValue u 0xC8 bs = (do
      let p ← readInt 1 bs
      Except.ok (.vint p.1, p.2)) := rfl

theorem unpackValue_C9 (u : Bytes → Except String (GoVal × Bytes)) (bs : Bytes) :
    unpackValue u 0xC9 bs = (do
      let p ← readInt 2 bs
      Except.ok (.vint p.1, p.2)) := rfl

theorem unpackValue_CA (u : Bytes → Except String (GoVal × Bytes)) (bs : Bytes) :
    unpackValue u 0xCA bs = (do
      let p ← readInt 4 bs
      Except.ok (.vint p.1, p.2)) := rfl

theorem unpackValue_CB (u : Bytes → Except String (GoVal × Bytes)) (bs : Bytes) :
    unpackValue u 0xCB bs = (do
      let p ← readInt 8 bs
      Except.ok (.vint p.1, p.2)) := rfl

theorem unpackValue_D0 (u : Bytes → Except String (GoVal × Bytes)) (bs : Bytes) :
    unpackValue u 0xD0 bs = (do
      let sz ← readSize 1 bs
      let p ← readBytes sz.1 sz.2
      Except.ok (.vstr p.1, p.2)) := rfl

theorem unpackValue_D1 (u : Bytes → Except String (GoVal × Bytes)) (bs : Bytes) :
    unpackValue u 0xD1 bs = (do
      let sz ← readSize 2 bs
      let p ← readBytes sz.1 sz.2
      Except.ok (.vstr p.1, p.2)) := rfl

theorem unpackValue_D4 (u : Bytes → Except String (GoVal × Bytes)) (bs : Bytes) :
    unpackValue u 0xD4 bs = (do
      let sz ← readSize 1 bs
      let p ← unpackN u sz.1 sz.2
      Except.ok (.vlist p.1, p.2)) := rfl

theorem unpackValue_D5 (u : Bytes → Except String (GoVal × Bytes)) (bs : Bytes) :
    unpackValue u 0xD5 bs = (do
      let sz ← readSize 2 bs
      let p ← unpackN u sz.1 sz.2
      Except.ok (.vlist p.1, p.2)) := rfl

theorem unpackValue_D8 (u : Bytes → Except String (GoVal × Bytes)) (bs : Bytes) :
    unpackValue u 0xD8 bs = (do
      let sz ← readSize 1 bs
      let p ← unpackMapN u sz.1 [] sz.2
      Except.ok (.vmap p.1, p.2)) := rfl

theorem unpackValue_D9 (u : Bytes → Except String (GoVal × Bytes)) (bs : Bytes) :
    unpackValue u 0xD9 bs = (do
      let sz ← readSize 2 bs
      let p ← unpackMapN u sz.1 [] sz.2
      Except.ok (.vmap p.1, p.2)) := rfl

theorem valMapSet_append (acc : List (Bytes × GoVal)) (k : Bytes) (v : GoVal)
    (h : ∀ p ∈ acc, p.1 ≠ k) : valMapSet acc k v = acc ++ [(k, v)] := by
  induction acc with
  | nil => rfl
  | cons p rest ih =>
      obtain ⟨k', v'⟩ := p
      simp only [valMapSet]
      rw [if_neg (h (k', v') (List.mem_cons_self _ _))]
      rw [ih (fun q hq => h q (List.mem_cons_of_mem _ hq))]
      rfl

theorem readBytes_four (a b c d : Nat) (t : Bytes) :
    readBytes 4 (a :: b :: c :: d :: t) = .ok ([a, b, c, d], t) := by
  unfold readBytes
  rw [if_neg (by simp)]
  rfl

theorem readBytes_eight (a b c d e f g h : Nat) (t : Bytes) :
    readBytes 8 (a :: b :: c :: d :: e :: f :: g :: h :: t) =
      .ok ([a, b, c, d, e, f, g, h], t) := by
  unfold readBytes
  rw [if_neg (by simp)]
  rfl

theorem readInt_one (b : Nat) (t : Bytes) : readInt 1 (b :: t) =
    .ok (if 2 * b < 256 then (b : Int) else (b : Int) - 256, t) := by
  unfold readInt
  rw [readBytes_one, except_bind_ok]
  simp only [beNat_one]
  rw [if_pos (by norm_num)]
  norm_num

theorem readInt_two (n : Nat) (t : Bytes) (h : n < 65536) : readInt 2 (pushUint16 n ++ t) =
    .ok (if 2 * n < 65536 then (n : Int) else (n : Int) - 65536, t) := by
  unfold readInt
  rw [show (pushUint16 n ++ t : Bytes) = (n / 256 % 256) :: (n % 256) :: t from rfl]
  rw [readBytes_two, except_bind_ok]
  rw [show ([n / 256 % 256, n % 256] : Bytes) = pushUint16 n from rfl, beNat_pushUint16 n h]
  rw [if_pos (by norm_num)]
  norm_num

theorem readInt_four (n : Nat) (t : Bytes) (h : n < 4294967296) :
    readInt 4 (pushUint32 n ++ t) =
      .ok (if 2 * n < 4294967296 then (n : Int) else (n : Int) - 4294967296, t) := by
  unfold readInt
  rw [show (pushUint32 n ++ t : Bytes) =
    (n / 16777216 % 256) :: (n / 65536 % 256) :: (n / 256 % 256) :: (n % 256) :: t from rfl]
  rw [readBytes_four, except_bind_ok]
  rw [show ([n / 16777216 % 256, n / 65536 % 256, n / 256 % 256, n % 256] : Bytes)
    = pushUint32 n from rfl, beNat_pushUint32 n h]
  rw [if_pos (by norm_num)]
  norm_num

theorem readInt_eight (n : Nat) (t : Bytes) (h : n < 18446744073709551616) :
    readInt 8 (pushUint64 n ++ t) =
      .ok (if 2 * n < 18446744073709551616 then (n : Int)
           else (n : Int) - 18446744073709551616, t) := by
  unfold readInt
  rw [show (pushUint64 n ++ t : Bytes) =
    (n / 72057594037927936 % 256) :: (n / 281474976710656 % 256) ::
    (n / 1099511627776 % 256) :: (n / 4294967296 % 256) ::
    (n / 16777216 % 256) :: (n / 65536 % 256) :: (n / 256 % 256) :: (n % 256) :: t from rfl]
  rw [readBytes_eight, except_bind_ok]
  rw [show ([n / 72057594037927936 % 256, n / 281474976710656 % 256,
    n / 1099511627776 % 256, n / 4294967296 % 256,
    n / 16777216 % 256, n / 65536 % 256, n / 256 % 256, n % 256] : Bytes)
    = pushUint64 n from rfl, beNat_pushUint64 n h]
  rw [if_pos (by norm_num)]
  norm_num

theorem packString_length_pos (s enc : Bytes) (h : packString s = .ok enc) :
    1 ≤ enc.length := by
  unfold packString at h
  split_ifs at h <;> (injection h with h2; subst h2; simp)

theorem packInteger_length_pos (i : Int) : 1 ≤ (packInteger i).length := by
  unfold packInteger
  split_ifs <;> simp [pushUint16, pushUint32, pushUint64]

theorem packString_decode (s enc : Bytes) (h : packString s = .ok enc)
    (fuel : Nat) (rest : Bytes) (hf : 1 ≤ fuel) :
    unpackFuel fuel (enc ++ rest) = .ok (.vstr s, rest) := by
  obtain ⟨f, rfl⟩ : ∃ f, fuel = f + 1 := ⟨fuel - 1, by omega⟩
  unfold packString at h
  by_cases h1 : s.length < 16
  · rw [if_pos h1] at h
    injection h with h2
    subst h2
    rw [List.cons_append, unpackFuel_cons, unpackValue_tinyStr _ _ _ h1]
    rw [readBytes_exact, except_bind_ok]
  · rw [if_neg h1] at h
    by_cases h2 : s.length < 256
    · rw [if_pos h2] at h
      injection h with h3
      subst h3
      rw [List.cons_append, List.cons_append, unpackFuel_cons, unpackValue_D0]
      rw [readSize_one, except_bind_ok]
      rw [readBytes_exact, except_bind_ok]
    · rw [if_neg h2] at h
      by_cases h3 : s.length < 65536
      · rw [if_pos h3] at h
        injection h with h4
        subst h4
        rw [List.cons_append, List.append_assoc, unpackFuel_cons, unpackValue_D1]
        rw [readSize_two _ _ h3, except_bind_ok]
        rw [readBytes_exact, except_bind_ok]
      · rw [if_neg h3] at h
        exact absurd h (by simp)

theorem packInteger_decode (i : Int) (hlo : -(2 ^ 63) ≤ i) (hhi : i < 2 ^ 63)
    (fuel : Nat) (rest : Bytes) (hf : 1 ≤ fuel) :
    unpackFuel fuel (packInteger i ++ rest) = .ok (.vint i, rest) := by
  obtain ⟨f, rfl⟩ : ∃ f, fuel = f + 1 := ⟨fuel - 1, by omega⟩
  unfold packInteger
  by_cases c1 : -16 ≤ i ∧ i ≤ 127
  · rw [if_pos c1]
    rw [List.singleton_append, unpackFuel_cons]
    by_cases hpos : 0 ≤ i
    · rw [unpackValue_tinyInt _ _ _ (by omega)]
      rw [show (((i % 256).toNat : Int)) = i from by omega]
    · rw [unpackValue_negTinyInt _ _ _ (by omega)]
      rw [show (((i % 256).toNat : Int)) - 256 = i from by omega]
  · rw [if_neg c1]
    by_cases c2 : -128 ≤ i ∧ i ≤ 127
    · rw [if_pos c2]
      rw [List.cons_append, List.singleton_append, unpackFuel_cons, unpackValue_C8]
      rw [readInt_one, except_bind_ok]
      rw [if_neg (by omega)]
      rw [show (((i % 256).toNat : Int)) - 256 = i from by omega]
    · rw [if_neg c2]
      by_cases c3 : -32768 ≤ i ∧ i ≤ 32767
      · rw [if_pos c3]
        rw [List.cons_append, unpackFuel_cons, unpackValue_C9]
        rw [readInt_two _ _ (by omega), except_bind_ok]
        by_cases hpos : 0 ≤ i
        · rw [if_pos (by omega)]
          rw [show (((i % 65536).toNat : Int)) = i from by omega]
        · rw [if_neg (by omega)]
          rw [show (((i % 65536).toNat : Int)) - 65536 = i from by omega]
      · rw [if_neg c3]
        by_cases c4 : -2147483648 ≤ i ∧ i ≤ 2147483647
        · rw [if_pos c4]
          rw [List.cons_append, unpackFuel_cons, unpackValue_CA]
          rw [readInt_four _ _ (by omega), except_bind_ok]
          by_cases hpos : 0 ≤ i
          · rw [if_pos (by omega)]
            rw [show (((i % 4294967296).toNat : Int)) = i from by omega]
          · rw [if_neg (by omega)]
            rw [show (((i % 4294967296).toNat : Int)) - 4294967296 = i from by omega]
        · rw [if_neg c4]
          rw [List.cons_append, unpackFuel_cons, unpackValue_CB]
          rw [readInt_eight _ _ (by omega), except_bind_ok]
          by_cases hpos : 0 ≤ i
          · rw [if_pos (by omega)]
            rw [show (((i % 18446744073709551616).toNat : Int)) = i from by omega]
          · rw [if_neg (by omega)]
            rw [show (((i % 18446744073709551616).toNat : Int)) - 18446744073709551616 = i
              from by omega]

theorem unpackN_succ (u : Bytes → Except String (GoVal × Bytes)) (n : Nat) (bs : Bytes) :
    unpackN u (n + 1) bs = (do
      let p ← u bs
      let q ← unpackN u n p.2
      Except.ok (p.1 :: q.1, q.2)) := rfl

theorem unpackN_elems :
    ∀ (xs : List GoVal) (body : Bytes) (fuel : Nat) (rest : Bytes),
      pack.packElems xs = .ok body →
      2 * body.length ≤ fuel →
      (∀ x ∈ xs, ∀ e : Bytes, pack x = .ok e → ∀ f r, 2 * e.length ≤ f →
        unpackFuel f (e ++ r) = .ok (x, r)) →
      unpackN (unpackFuel fuel) xs.length (body ++ rest) = .ok (xs, rest) := by
  intro xs
  induction xs with
  | nil =>
      intro body fuel rest hpk hf hel
      simp only [pack.packElems] at hpk
      injection hpk with h
      subst h
      rfl
  | cons x xs ih =>
      intro body fuel rest hpk hf hel
      simp only [pack.packElems] at hpk
      cases hx : pack x with
      | error e =>
          rw [hx, except_bind_err] at hpk
          exact absurd hpk (by simp)
      | ok e =>
          rw [hx, except_bind_ok] at hpk
          cases hxs : pack.packElems xs with
          | error e2 =>
              rw [hxs, except_bind_err] at hpk
              exact absurd hpk (by simp)
          | ok es =>
              rw [hxs, except_bind_ok] at hpk
              injection hpk with h
              subst h
              have hlen : 2 * e.length ≤ fuel ∧ 2 * es.length ≤ fuel := by
                rw [List.length_append] at hf
                omega
              rw [List.length_cons, List.append_assoc, unpackN_succ]
              rw [hel x (List.mem_cons_self x xs) e hx fuel (es ++ rest) hlen.1,
                except_bind_ok]
              rw [ih es fuel rest hxs hlen.2
                (fun y hy => hel y (List.mem_cons_of_mem x hy)), except_bind_ok]

theorem unpackMapN_succ_ok (u : Bytes → Except String (GoVal × Bytes)) (n : Nat)
    (acc : List (Bytes × GoVal)) (bs t : Bytes) (k : Bytes)
    (h : u bs = .ok (.vstr k, t)) :
    unpackMapN u (n + 1) acc bs = (do
      let pv ← u t
      unpackMapN u n (valMapSet acc k pv.1) pv.2) := by
  simp only [unpackMapN, h, except_bind_ok]

theorem unpackMapN_entries :
    ∀ (m : List (Bytes × GoVal)) (body : Bytes) (fuel : Nat)
      (acc : List (Bytes × GoVal)) (rest : Bytes),
      pack.packEntries m = .ok body →
      2 * body.length + 1 ≤ fuel →
      (List.map Prod.fst m).Nodup →
      (∀ kv ∈ m, ∀ p ∈ acc, p.1 ≠ kv.1) →
      (∀ kv ∈ m, ∀ e : Bytes, pack kv.2 = .ok e → ∀ f r, 2 * e.length ≤ f →
        unpackFuel f (e ++ r) = .ok (kv.2, r)) →
      unpackMapN (unpackFuel fuel) m.length acc (body ++ rest) = .ok (acc ++ m, rest) := by
  intro m
  induction m with
  | nil =>
      intro body fuel acc rest hpk hf hnd hacc hel
      simp only [pack.packEntries] at hpk
      injection hpk with h
      subst h
      simp only [List.nil_append, List.append_nil]
      rfl
  | cons kv m ih =>
      intro body fuel acc rest hpk hf hnd hacc hel
      obtain ⟨k, v⟩ := kv
      simp only [pack.packEntries] at hpk
      cases hk : packString k with
      | error e =>
          rw [hk, except_bind_err] at hpk
          exact absurd hpk (by simp)
      | ok ke =>
          rw [hk, except_bind_ok] at hpk
          cases hv : pack v with
          | error e =>
              rw [hv, except_bind_err] at hpk
              exact absurd hpk (by simp)
          | ok ve =>
              rw [hv, except_bind_ok] at hpk
              cases he : pack.packEntries m with
              | error e2 =>
                  rw [he, except_bind_err] at hpk
                  exact absurd hpk (by simp)
              | ok es =>
                  rw [he, except_bind_ok] at hpk
                  injection hpk with h
                  subst h
                  have hlen : 2 * ve.length ≤ fuel ∧ 2 * es.length + 1 ≤ fuel := by
                    simp only [List.length_append] at hf
                    omega
                  have hkdec : unpackFuel fuel (ke ++ (ve ++ (es ++ rest))) =
                      .ok (.vstr k, ve ++ (es ++ rest)) :=
                    packString_decode k ke hk fuel (ve ++ (es ++ rest)) (by omega)
                  rw [List.length_cons]
                  rw [show (ke ++ ve ++ es) ++ rest = ke ++ (ve ++ (es ++ rest)) from by
                    simp [List.append_assoc]]
                  rw [unpackMapN_succ_ok _ _ _ _ _ _ hkdec]
                  rw [hel (k, v) (List.mem_cons_self _ _) ve hv fuel (es ++ rest) hlen.1,
                    except_bind_ok]
                  have hknotin : k ∉ List.map Prod.fst m :=
                    (List.nodup_cons.mp hnd).1
                  rw [valMapSet_append acc k v
                    (fun p hp => hacc (k, v) (List.mem_cons_self _ _) p hp)]
                  rw [ih es fuel (acc ++ [(k, v)]) rest he hlen.2
                    (List.nodup_cons.mp hnd).2
                    (by
                      intro kv2 hkv2 p hp
                      rcases List.mem_append.mp hp with hpa | hpk2
                      · exact hacc kv2 (List.mem_cons_of_mem _ hkv2) p hpa
                      · obtain rfl : p = (k, v) := by simpa using hpk2
                        intro hEq
                        have hmem : kv2.1 ∈ List.map Prod.fst m :=
                          List.mem_map_of_mem Prod.fst hkv2
                        have hk2 : (k, v).1 = k := rfl
                        rw [hk2] at hEq
                        rw [hEq] at hknotin
                        exact hknotin hmem)
                    (fun kv2 hkv2 => hel kv2 (List.mem_cons_of_mem _ hkv2))]
                  rw [List.append_assoc, List.singleton_append]

theorem unpackValue_C0 (u : Bytes → Except String (GoVal × Bytes)) (bs : Bytes) :
    unpackValue u 0xC0 bs = .ok (.vnull, bs) := rfl

theorem unpackValue_C2 (u : Bytes → Except String (GoVal × Bytes)) (bs : Bytes) :
    unpackValue u 0xC2 bs = .ok (.vbool false, bs) := rfl

theorem unpackValue_C3 (u : Bytes → Except String (GoVal × Bytes)) (bs : Bytes) :
    unpackValue u 0xC3 bs = .ok (.vbool true, bs) := rfl

theorem packRound : ∀ n : Nat, ∀ v : GoVal, gsize v ≤ n → Dom v →
    ∀ enc : Bytes, pack v = .ok enc → ∀ fuel rest, 2 * enc.length ≤ fuel →
    unpackFuel fuel (enc ++ rest) = .ok (v, rest) := by
  intro n
  induction n with
  | zero =>
      intro v hg
      exact absurd hg (by have := gsize_pos v; omega)
  | succ n ih =>
      intro v hg hdom enc hpk fuel rest hfuel
      cases hdom with
      | null =>
          rw [show pack GoVal.vnull = .ok [0xC0] from rfl] at hpk
          injection hpk with h
          subst h
          obtain ⟨f, rfl⟩ : ∃ f, fuel = f + 1 :=
            ⟨fuel - 1, by simp at hfuel; omega⟩
          rw [List.singleton_append, unpackFuel_cons, unpackValue_C0]
      | bool b =>
          cases b with
          | false =>
              rw [show pack (GoVal.vbool false) = .ok [0xC2] from rfl] at hpk
              injection hpk with h
              subst h
              obtain ⟨f, rfl⟩ : ∃ f, fuel = f + 1 :=
                ⟨fuel - 1, by simp at hfuel; omega⟩
              rw [List.singleton_append, unpackFuel_cons, unpackValue_C2]
          | true =>
              rw [show pack (GoVal.vbool true) = .ok [0xC3] from rfl] at hpk
              injection hpk with h
              subst h
              obtain ⟨f, rfl⟩ : ∃ f, fuel = f + 1 :=
                ⟨fuel - 1, by simp at hfuel; omega⟩
              rw [List.singleton_append, unpackFuel_cons, unpackValue_C3]
      | int i hlo hhi =>
          simp only [pack] at hpk
          injection hpk with h
          subst h
          exact packInteger_decode i hlo hhi fuel rest
            (by have := packInteger_length_pos i; omega)
      | str s hslen hsb =>
          have hps : packString s = .ok enc := hpk
          exact packString_decode s enc hps fuel rest
            (by have := packString_length_pos s enc hps; omega)
      | list xs hlen hall =>
          simp only [pack] at hpk
          cases hh : packListHeader xs.length with
          | error e =>
              rw [hh, except_bind_err] at hpk
              exact absurd hpk (by simp)
          | ok hd =>
              rw [hh, except_bind_ok] at hpk
              cases hb : pack.packElems xs with
              | error e =>
                  rw [hb, except_bind_err] at hpk
                  exact absurd hpk (by simp)
              | ok body =>
                  rw [hb, except_bind_ok] at hpk
                  injection hpk with h
                  subst h
                  have helem : ∀ x ∈ xs, ∀ e : Bytes, pack x = .ok e → ∀ f r,
                      2 * e.length ≤ f → unpackFuel f (e ++ r) = .ok (x, r) := by
                    intro x hx
                    have hsz := gsize_lt_of_mem_list x xs hx
                    exact ih x (by omega) (hall x hx)
                  unfold packListHeader at hh
                  by_cases hs1 : xs.length < 16
                  · rw [if_pos hs1] at hh
                    injection hh with h
                    subst h
                    obtain ⟨f, rfl⟩ : ∃ f, fuel = f + 1 :=
                      ⟨fuel - 1, by simp [List.length_append] at hfuel; omega⟩
                    rw [show ([0x90 + xs.length] ++ body) ++ rest
                        = (0x90 + xs.length) :: (body ++ rest) from by simp]
                    rw [unpackFuel_cons, unpackValue_tinyList _ _ _ hs1]
                    rw [unpackN_elems xs body f rest hb
                      (by simp [List.length_append] at hfuel; omega) helem]
                    rfl
                  · rw [if_neg hs1] at hh
                    by_cases hs2 : xs.length < 256
                    · rw [if_pos hs2] at hh
                      injection hh with h
                      subst h
                      obtain ⟨f, rfl⟩ : ∃ f, fuel = f + 1 :=
                        ⟨fuel - 1, by simp [List.length_append] at hfuel; omega⟩
                      rw [show ([0xD4, xs.length] ++ body) ++ rest
                          = 0xD4 :: (xs.length :: (body ++ rest)) from by simp]
                      rw [unpackFuel_cons, unpackValue_D4]
                      rw [readSize_one, except_bind_ok]
                      rw [unpackN_elems xs body f rest hb
                        (by simp [List.length_append] at hfuel; omega) helem]
                      rfl
                    · rw [if_neg hs2, if_pos hlen] at hh
                      injection hh with h
                      subst h
                      obtain ⟨f, rfl⟩ : ∃ f, fuel = f + 1 :=
                        ⟨fuel - 1, by simp [List.length_append] at hfuel; omega⟩
                      rw [show ((0xD5 :: pushUint16 xs.length) ++ body) ++ rest
                          = 0xD5 :: (pushUint16 xs.length ++ (body ++ rest)) from by simp]
                      rw [unpackFuel_cons, unpackValue_D5]
                      rw [readSize_two _ _ hlen, except_bind_ok]
                      rw [unpackN_elems xs body f rest hb
                        (by simp [pushUint16, List.length_append] at hfuel; omega) helem]
                      rfl
      | map m hlen hnd hklen hkb hall =>
          simp only [pack] at hpk
          cases hh : packMapHeader m.length with
          | error e =>
              rw [hh, except_bind_err] at hpk
              exact absurd hpk (by simp)
          | ok hd =>
              rw [hh, except_bind_ok] at hpk
              cases hb : pack.packEntries m with
              | error e =>
                  rw [hb, except_bind_err] at hpk
                  exact absurd hpk (by simp)
              | ok body =>
                  rw [hb, except_bind_ok] at hpk
                  injection hpk with h
                  subst h
                  have helem : ∀ kv ∈ m, ∀ e : Bytes, pack kv.2 = .ok e → ∀ f r,
                      2 * e.length ≤ f → unpackFuel f (e ++ r) = .ok (kv.2, r) := by
                    intro kv hkv
                    have hsz := gsize_lt_of_mem_map kv m hkv
                    exact ih kv.2 (by omega) (hall kv hkv)
                  have hacc0 : ∀ kv ∈ m, ∀ p ∈ ([] : List (Bytes × GoVal)), p.1 ≠ kv.1 := by
                    intro kv _ p hp
                    cases hp
                  unfold packMapHeader at hh
                  by_cases hs1 : m.length < 16
                  · rw [if_pos hs1] at hh
                    injection hh with h
                    subst h
                    obtain ⟨f, rfl⟩ : ∃ f, fuel = f + 1 :=
                      ⟨fuel - 1, by simp [List.length_append] at hfuel; omega⟩
                    rw [show ([0xA0 + m.length] ++ body) ++ rest
                        = (0xA0 + m.length) :: (body ++ rest) from by simp]
                    rw [unpackFuel_cons, unpackValue_tinyMap _ _ _ hs1]
                    rw [unpackMapN_entries m body f [] rest hb
                      (by simp [List.length_append] at hfuel; omega) hnd hacc0 helem]
                    rw [except_bind_ok, List.nil_append]
                  · rw [if_neg hs1] at hh
                    by_cases hs2 : m.length < 256
                    · rw [if_pos hs2] at hh
                      injection hh with h
                      subst h
                      obtain ⟨f, rfl⟩ : ∃ f, fuel = f + 1 :=
                        ⟨fuel - 1, by simp [List.length_append] at hfuel; omega⟩
                      rw [show ([0xD8, m.length] ++ body) ++ rest
                          = 0xD8 :: (m.length :: (body ++ rest)) from by simp]
                      rw [unpackFuel_cons, unpackValue_D8]
                      rw [readSize_one, except_bind_ok]
                      rw [unpackMapN_entries m body f [] rest hb
                        (by simp [List.length_append] at hfuel; omega) hnd hacc0 helem]
                      rw [except_bind_ok, List.nil_append]
                    · rw [if_neg hs2, if_pos hlen] at hh
                      injection hh with h
                      subst h
                      obtain ⟨f, rfl⟩ : ∃ f, fuel = f + 1 :=
                        ⟨fuel - 1, by simp [List.length_append] at hfuel; omega⟩
                      rw [show ((0xD9 :: pushUint16 m.length) ++ body) ++ rest
                          = 0xD9 :: (pushUint16 m.length ++ (body ++ rest)) from by simp]
                      rw [unpackFuel_cons, unpackValue_D9]
                      rw [readSize_two _ _ hlen, except_bind_ok]
                      rw [unpackMapN_entries m body f [] rest hb
                        (by simp [pushUint16, List.length_append] at hfuel; omega) hnd hacc0 helem]
                      rw [except_bind_ok, List.nil_append]

theorem packString_ok (s : Bytes) (h : s.length < 65536) :
    ∃ e : Bytes, packString s = .ok e := by
  unfold packString
  by_cases h1 : s.length < 16
  · rw [if_pos h1]; exact ⟨_, rfl⟩
  · rw [if_neg h1]
    by_cases h2 : s.length < 256
    · rw [if_pos h2]; exact ⟨_, rfl⟩
    · rw [if_neg h2, if_pos h]; exact ⟨_, rfl⟩

theorem packListHeader_ok (n : Nat) (h : n < 65536) :
    ∃ e : Bytes, packListHeader n = .ok e := by
  unfold packListHeader
  by_cases h1 : n < 16
  · rw [if_pos h1]; exact ⟨_, rfl⟩
  · rw [if_neg h1]
    by_cases h2 : n < 256
    · rw [if_pos h2]; exact ⟨_, rfl⟩
    · rw [if_neg h2, if_pos h]; exact ⟨_, rfl⟩

theorem packMapHeader_ok (n : Nat) (h : n < 65536) :
    ∃ e : Bytes, packMapHeader n = .ok e := by
  unfold packMapHeader
  by_cases h1 : n < 16
  · rw [if_pos h1]; exact ⟨_, rfl⟩
  · rw [if_neg h1]
    by_cases h2 : n < 256
    · rw [if_pos h2]; exact ⟨_, rfl⟩
    · rw [if_neg h2, if_pos h]; exact ⟨_, rfl⟩

theorem packElems_ok : ∀ xs : List GoVal, (∀ x ∈ xs, ∃ e : Bytes, pack x = .ok e) →
    ∃ b : Bytes, pack.packElems xs = .ok b := by
  intro xs
  induction xs with
  | nil => intro h; exact ⟨[], rfl⟩
  | cons x xs ih =>
      intro h
      obtain ⟨e, he⟩ := h x (List.mem_cons_self x xs)
      obtain ⟨es, hes⟩ := ih fun y hy => h y (List.mem_cons_of_mem x hy)
      exact ⟨e ++ es, by simp only [pack.packElems, he, hes, except_bind_ok]⟩

theorem packEntries_ok : ∀ m : List (Bytes × GoVal),
    (∀ kv ∈ m, kv.1.length < 65536) →
    (∀ kv ∈ m, ∃ e : Bytes, pack kv.2 = .ok e) →
    ∃ b : Bytes, pack.packEntries m = .ok b := by
  intro m
  induction m with
  | nil => intro h1 h2; exact ⟨[], rfl⟩
  | cons kv m ih =>
      intro h1 h2
      obtain ⟨k, v⟩ := kv
      obtain ⟨ke, hke⟩ := packString_ok k (h1 (k, v) (List.mem_cons_self _ _))
      obtain ⟨ve, hve⟩ := h2 (k, v) (List.mem_cons_self _ _)
      obtain ⟨es, hes⟩ := ih (fun q hq => h1 q (List.mem_cons_of_mem _ hq))
        (fun q hq => h2 q (List.mem_cons_of_mem _ hq))
      exact ⟨ke ++ ve ++ es, by simp only [pack.packEntries, hke, hve, hes, except_bind_ok]⟩

theorem pack_ok (v : GoVal) (h : Dom v) : ∃ enc : Bytes, pack v = .ok enc := by
  induction h with
  | null => exact ⟨_, rfl⟩
  | bool b => cases b <;> exact ⟨_, rfl⟩
  | int i h1 h2 => exact ⟨_, rfl⟩
  | str s hl hb => exact packString_ok s hl
  | list xs hl hall ih =>
      obtain ⟨b, hb⟩ := packElems_ok xs ih
      obtain ⟨hd, hh⟩ := packListHeader_ok xs.length hl
      exact ⟨hd ++ b, by simp only [pack, hh, hb, except_bind_ok]⟩
  | map m hl hnd hklen hkb hall ih =>
      obtain ⟨b, hb⟩ := packEntries_ok m hklen ih
      obtain ⟨hd, hh⟩ := packMapHeader_ok m.length hl
      exact ⟨hd ++ b, by simp only [pack, hh, hb, except_bind_ok]⟩

/-- C1 (corrected): for every value of the PackStream domain that the Packer
actually accepts - null, booleans, int64-ranged integers, strings, lists and
maps with distinct string keys, every size below the 16-bit limit - packing
succeeds and unpacking the produced bytes returns the structurally equal
value, with every integer surfaced as an i64 regardless of the narrower wire
width chosen for it. -/
theorem packstream_roundTrip (v : GoVal) (h : Dom v) :
    ∃ enc : Bytes, pack v = .ok enc ∧ unpack enc = .ok (v, []) := by
  obtain ⟨enc, henc⟩ := pack_ok v h
  refine ⟨enc, henc, ?_⟩
  have hr := packRound (gsize v) v (le_refl _) h enc henc
    (2 * enc.length + 1) [] (by omega)
  rw [List.append_nil] at hr
  exact hr

/-- C1 witness: the concrete two-entry map {"n": 300, "m": "hi"} packs and
unpacks back to itself. -/
theorem packstream_roundTrip_witness :
    ∃ enc : Bytes,
      pack (.vmap [([110], .vint 300), ([109], .vstr [104, 105])]) = .ok enc ∧
      unpack enc = .ok (.vmap [([110], .vint 300), ([109], .vstr [104, 105])], []) :=
  packstream_roundTrip _ (Dom.map _ (by norm_num) (by decide) (by decide) (by decide)
    (by
      intro kv hkv
      rcases List.mem_cons.mp hkv with rfl | h
      · exact Dom.int 300 (by norm_num) (by norm_num)
      · rcases List.mem_cons.mp h with rfl | h2
        · exact Dom.str _ (by norm_num) (by decide)
        · cases h2))

/-- C1 counterexample to the spec sentence: a float64 (here 1.5 by its IEEE-754
bit pattern) is not encodable - `Pack` has no float case and its reflection
default answers a cannot-pack error, so `decode(encode(v)) = v` cannot hold for
floats. -/
theorem pack_float_fails :
    pack (.vfloat 4609434218613702656) = .error "Cannot pack type: float64" := rfl

end GopherCypher
